import Mathlib

/-!
Shallow embedding of the tetrust game engine (src/main.rs) and proofs of the
specification claims.  Machine integers are modelled as `Nat`/`Int`; fallible
operations (array indexing that can trap, unsigned subtraction that can
underflow) return `Option`.
-/

namespace Tetrust

/-- Modelled from the spec: `Color` lives in `util.rs`, which is not part of
the provided sources.  The spec describes it as "an enumerated value (opaque
to the core) tagging a filled cell or a piece; equality-comparable".  The
variants below are exactly those `main.rs` mentions. -/
inductive Color where
  | Cyan
  | Orange
  | Blue
  | Purple
  | Green
  | Red
  | Black
deriving DecidableEq

/-- Modelled from the spec: `Direction` lives in `util.rs`, which is not part
of the provided sources.  `main.rs` uses exactly the two rotation directions
(clockwise = `Right`, counter-clockwise = `Left`). -/
inductive Direction where
  | Left
  | Right
deriving DecidableEq

/-- `const BOARD_WIDTH: u32 = 10` -/
def BOARD_WIDTH : Nat := 10

/-- `const BOARD_HEIGHT: u32 = 20` -/
def BOARD_HEIGHT : Nat := 20

/-- `const HIDDEN_ROWS: u32 = 2` -/
def HIDDEN_ROWS : Nat := 2

/-- `struct Point { x: i32, y: i32 }` -/
structure Point where
  x : Int
  y : Int
deriving DecidableEq

/-- `struct Piece { color: Color, shape: Vec<Vec<u8>> }` -/
structure Piece where
  color : Color
  shape : List (List Nat)
deriving DecidableEq

/-- Matrix read `shape[i][j]`; out-of-range reads default to `0` (the Rust
code only reads in range for the square matrices it constructs). -/
def mget (m : List (List Nat)) (i j : Nat) : Nat :=
  (m.getD i []).getD j 0

/-- Matrix write `shape[i][j] = v` (in range; out-of-range writes are no-ops,
never exercised by the embedded code paths). -/
def mset (m : List (List Nat)) (i j : Nat) (v : Nat) : List (List Nat) :=
  m.set i ((m.getD i []).set j v)

/-- `Piece::each_point`: enumerates occupied `(row, col)` offsets in raster
order, iterating both indices over `0..shape.len()`. -/
def Piece.points (p : Piece) : List (Int × Int) :=
  let n := p.shape.length
  (List.range n).flatMap (fun row =>
    (List.range n).filterMap (fun col =>
      if mget p.shape row col ≠ 0 then some ((row : Int), (col : Int)) else none))

/-- `Piece::new_o` -/
def Piece.new_o : Piece :=
  { color := Color.Cyan,
    shape := [[1, 1],
              [1, 1]] }

/-- `Piece::new_l` -/
def Piece.new_l : Piece :=
  { color := Color.Orange,
    shape := [[0, 0, 1],
              [1, 1, 1],
              [0, 0, 0]] }

/-- `Piece::new_j` -/
def Piece.new_j : Piece :=
  { color := Color.Blue,
    shape := [[1, 0, 0],
              [1, 1, 1],
              [0, 0, 0]] }

/-- `Piece::new_t` -/
def Piece.new_t : Piece :=
  { color := Color.Purple,
    shape := [[0, 1, 0],
              [1, 1, 1],
              [0, 0, 0]] }

/-- `Piece::new_s` -/
def Piece.new_s : Piece :=
  { color := Color.Green,
    shape := [[0, 1, 1],
              [1, 1, 0],
              [0, 0, 0]] }

/-- `Piece::new_z` -/
def Piece.new_z : Piece :=
  { color := Color.Red,
    shape := [[1, 1, 0],
              [0, 1, 1],
              [0, 0, 0]] }

/-- `Piece::new_i` -/
def Piece.new_i : Piece :=
  { color := Color.Cyan,
    shape := [[0, 0, 0, 0],
              [1, 1, 1, 1],
              [0, 0, 0, 0],
              [0, 0, 0, 0]] }

/-- `struct Board { cells: [[Option<Color>; BOARD_WIDTH]; BOARD_HEIGHT] }` -/
structure Board where
  cells : List (List (Option Color))
deriving DecidableEq

/-- Well-formedness of the fixed-size Rust array: 20 rows of 10 cells. -/
def Board.WF (b : Board) : Prop :=
  b.cells.length = BOARD_HEIGHT ∧ ∀ r ∈ b.cells, r.length = BOARD_WIDTH

instance (b : Board) : Decidable b.WF := by
  unfold Board.WF
  infer_instance

/-- Read `cells[y][x]` at integer coordinates; out of range reads give
`none` (the embedded code only reads in range, after its bounds checks). -/
def Board.cellAt (b : Board) (y x : Int) : Option Color :=
  ((b.cells.getD y.toNat []).getD x.toNat none)

/-- The per-point test of `Board::collision_test`: the absolute coordinate
`origin + offset` is out of `[0, WIDTH) × [0, HEIGHT)` or hits a cell that is
not `None`. -/
def collides (b : Board) (origin : Point) (rc : Int × Int) : Bool :=
  let x := origin.x + rc.2
  let y := origin.y + rc.1
  decide (x < 0) || decide ((BOARD_WIDTH : Int) ≤ x) ||
    decide (y < 0) || decide ((BOARD_HEIGHT : Int) ≤ y) ||
    decide (b.cellAt y x ≠ none)

/-- `Board::collision_test`: the `found` flag computes an existential over
the occupied offsets; the board is only read. -/
def Board.collision_test (b : Board) (p : Piece) (origin : Point) : Bool :=
  p.points.any (collides b origin)

/-- The spec's notion of an occupied offset of a piece, stated directly on
the shape matrix. -/
def SpecOccupied (p : Piece) (row col : Nat) : Prop :=
  row < p.shape.length ∧ col < p.shape.length ∧ mget p.shape row col ≠ 0

/-- The spec's wording of the collision predicate: some occupied offset maps
outside `[0, WIDTH) × [0, HEIGHT)` or onto a non-empty cell. -/
def SpecCollision (b : Board) (p : Piece) (origin : Point) : Prop :=
  ∃ row col : Nat, SpecOccupied p row col ∧
    (¬ (0 ≤ origin.x + (col : Int) ∧ origin.x + (col : Int) < (BOARD_WIDTH : Int) ∧
        0 ≤ origin.y + (row : Int) ∧ origin.y + (row : Int) < (BOARD_HEIGHT : Int)) ∨
      b.cellAt (origin.y + (row : Int)) (origin.x + (col : Int)) ≠ none)

/-- Write `cells[y][x] = Some(c)` at integer coordinates; `none` models the
trap on a cast-to-usize/index out of range. -/
def writeCell (b : Board) (y x : Int) (c : Color) : Option Board :=
  if 0 ≤ y ∧ y.toNat < b.cells.length ∧ 0 ≤ x ∧ x.toNat < (b.cells.getD y.toNat []).length then
    some ⟨b.cells.set y.toNat ((b.cells.getD y.toNat []).set x.toNat (some c))⟩
  else none

/-- `Board::lock_piece`: writes the piece's color into every covered cell,
one `each_point` callback at a time. -/
def Board.lock_piece (b : Board) (p : Piece) (origin : Point) : Option Board :=
  p.points.foldlM (fun bb rc => writeCell bb (origin.y + rc.1) (origin.x + rc.2) p.color) b

/-- A row is complete when no cell is `None`
(`!self.cells[row].iter().any(|x| *x == None)`). -/
def rowFull (r : List (Option Color)) : Bool :=
  ! r.any (fun x => decide (x = none))

/-- `[None; BOARD_WIDTH]` -/
def emptyRow : List (Option Color) := List.replicate BOARD_WIDTH none

/-- The inner `while` loop of `Board::clear_lines`.  `none` models the trap
when `row - cleared_lines` underflows `usize`.  The fuel argument is always
called with `row + 2`, which is more than the loop can consume, because
`cleared` grows by one per iteration and the loop stops (with a trap) as
soon as `cleared` exceeds `row`. -/
def clearInner : Nat → Nat → Nat → List (List (Option Color)) →
    Option (Nat × List (List (Option Color)))
  | 0, _, _, _ => none
  | fuel + 1, row, cleared, cells =>
    if rowFull (cells.getD row []) then
      let cleared' := cleared + 1
      if row < cleared' then none
      else
        let cells' := (cells.set row (cells.getD (row - cleared') [])).set
          (row - cleared') emptyRow
        clearInner fuel row cleared' cells'
    else some (cleared, cells)

/-- The outer `for row in (0..len).rev()` loop of `Board::clear_lines`,
taking the list of row indices still to visit.  The guard
`(row as i32) - (cleared_lines as i32) < 0` breaks out of the whole loop. -/
def clearOuter : List Nat → Nat → List (List (Option Color)) →
    Option (Nat × List (List (Option Color)))
  | [], cleared, cells => some (cleared, cells)
  | row :: rest, cleared, cells =>
    if (row : Int) - (cleared : Int) < 0 then some (cleared, cells)
    else
      let cells' := if 0 < cleared then
          (cells.set row (cells.getD (row - cleared) [])).set (row - cleared) emptyRow
        else cells
      match clearInner (row + 2) row cleared cells' with
      | none => none
      | some (cleared2, cells2) => clearOuter rest cleared2 cells2

/-- `Board::clear_lines`: returns the cleared board and the number of
cleared lines, or `none` when the scan traps. -/
def Board.clear_lines (b : Board) : Option (Board × Nat) :=
  match clearOuter ((List.range b.cells.length).reverse) 0 b.cells with
  | none => none
  | some (cleared, cells) => some (⟨cells⟩, cleared)

/-- One iteration of the layer-rotation loop body of `Piece::rotate`: a
4-way cell cycle performed as four sequential assignments, with `t` read
from the matrix before any assignment. -/
def rotStep (dir : Direction) (size : Nat) (rc : Nat × Nat) (m : List (List Nat)) :
    List (List Nat) :=
  let row := rc.1
  let col := rc.2
  let t := mget m row col
  match dir with
  | Direction.Left =>
    let m1 := mset m row col (mget m col (size - row - 1))
    let m2 := mset m1 col (size - row - 1) (mget m1 (size - row - 1) (size - col - 1))
    let m3 := mset m2 (size - row - 1) (size - col - 1) (mget m2 (size - col - 1) row)
    mset m3 (size - col - 1) row t
  | Direction.Right =>
    let m1 := mset m row col (mget m (size - col - 1) row)
    let m2 := mset m1 (size - col - 1) row (mget m1 (size - row - 1) (size - col - 1))
    let m3 := mset m2 (size - row - 1) (size - col - 1) (mget m2 col (size - row - 1))
    mset m3 col (size - row - 1) t

/-- The iteration pairs of `Piece::rotate`:
`for row in 0..size/2 { for col in row..(size - row - 1) { ... } }`. -/
def rotIters (size : Nat) : List (Nat × Nat) :=
  (List.range (size / 2)).flatMap (fun row =>
    (List.range' row (size - 1 - row - row)).map (fun col => (row, col)))

/-- `Piece::rotate`, as a pure function on the piece. -/
def Piece.rotate (p : Piece) (dir : Direction) : Piece :=
  let size := p.shape.length
  { p with shape := (rotIters size).foldl (fun m rc => rotStep dir size rc m) p.shape }

/-- A square occupancy matrix: every row as long as the matrix is high. -/
def SquareWF (m : List (List Nat)) : Prop :=
  ∀ r ∈ m, r.length = m.length

instance (m : List (List Nat)) : Decidable (SquareWF m) := by
  unfold SquareWF
  infer_instance

/-- Index map of a single rotation: the rotated matrix reads its `(i, j)`
entry from `rotIndex dir n (i, j)` in the original matrix. -/
def rotIndex (dir : Direction) (n : Nat) (ij : Nat × Nat) : Nat × Nat :=
  match dir with
  | Direction.Left => (ij.2, n - ij.1 - 1)
  | Direction.Right => (n - ij.2 - 1, ij.1)

/-- The index set traversed by the rotation loops:
`row < size / 2` and `row ≤ col < size - row - 1`. -/
def InIters (n r c : Nat) : Prop :=
  r < n / 2 ∧ r ≤ c ∧ c < n - r - 1

instance (n r c : Nat) : Decidable (InIters n r c) := by
  unfold InIters
  infer_instance

/-- The 4-cycle of cells touched by the loop iteration `(r, c)`:
`(r, c)`, `(c, n-1-r)`, `(n-1-r, n-1-c)`, `(n-1-c, r)`. -/
def inOrbit (n r c i j : Nat) : Prop :=
  (i = r ∧ j = c) ∨ (i = c ∧ j = n - r - 1) ∨ (i = n - r - 1 ∧ j = n - c - 1) ∨
    (i = n - c - 1 ∧ j = r)

instance (n r c i j : Nat) : Decidable (inOrbit n r c i j) := by
  unfold inOrbit
  infer_instance

/-- Number of occupied cells of a square matrix. -/
def occCount (m : List (List Nat)) : Nat :=
  ((Finset.range m.length ×ˢ Finset.range m.length).filter
    (fun ij => mget m ij.1 ij.2 ≠ 0)).card

/-- `struct PieceBag { pieces: [Option<Piece>; 7] }` -/
structure PieceBag where
  pieces : List (Option Piece)
deriving DecidableEq

/-- The fixed array of pieces `fill_bag` starts from, in source order. -/
def canonicalPieces : List Piece :=
  [Piece.new_o, Piece.new_l, Piece.new_j, Piece.new_t, Piece.new_s, Piece.new_z, Piece.new_i]

/-- One iteration of the `for i in 0..7` loop of `PieceBag::fill_bag`:
`if let Some(piece) = pieces[indices[i]].take() { self.pieces[i] = Some(piece) }`.
The state is the local `pieces` array paired with the bag's array. -/
def fillStep (perm : List Nat) (st : List (Option Piece) × List (Option Piece)) (i : Nat) :
    List (Option Piece) × List (Option Piece) :=
  let idx := perm.getD i 0
  match st.1.getD idx none with
  | some piece => (st.1.set idx none, st.2.set i (some piece))
  | none => st

/-- `PieceBag::fill_bag`, with the shuffled index order passed in as `perm`
(the code obtains it by shuffling `(0..7).collect()` with a thread-local
random generator, which a pure embedding takes as a parameter). -/
def PieceBag.fill_bag (b : PieceBag) (perm : List Nat) : PieceBag :=
  ⟨((List.range 7).foldl (fillStep perm) (canonicalPieces.map some, b.pieces)).2⟩

/-- `PieceBag::new`: seven empty slots, then a fill. -/
def PieceBag.new (perm : List Nat) : PieceBag :=
  PieceBag.fill_bag ⟨List.replicate 7 none⟩ perm

/-- The shift `for i in 0..6 { self.pieces[i] = self.pieces[i + 1].take(); }`
on the fixed 7-slot array: slot 6 is left `None` by the final `take`. -/
def popShift (pieces : List (Option Piece)) : List (Option Piece) :=
  [pieces.getD 1 none, pieces.getD 2 none, pieces.getD 3 none,
   pieces.getD 4 none, pieces.getD 5 none, pieces.getD 6 none, none]

/-- The non-recursive body of `PieceBag::pop`: `none` when slot 0 is empty
(the case in which the code refills and retries). -/
def popOnce (b : PieceBag) (perm : List Nat) : Option (Piece × PieceBag) :=
  match b.pieces.getD 0 none with
  | some piece =>
    let shifted := popShift b.pieces
    let b' : PieceBag :=
      if shifted.getD 6 none = none then PieceBag.fill_bag ⟨shifted⟩ perm else ⟨shifted⟩
    some (piece, b')
  | none => none

/-- `PieceBag::pop`.  The code's recursive retry can only recurse once,
because `fill_bag` repopulates slot 0; both fills in a single call are
modelled with the same permutation parameter. -/
def PieceBag.pop (b : PieceBag) (perm : List Nat) : Option (Piece × PieceBag) :=
  match popOnce b perm with
  | some r => some r
  | none => popOnce (b.fill_bag perm) perm

/-- `PieceBag::peek`; `none` models the "No next piece in piece bag" abort. -/
def PieceBag.peek (b : PieceBag) : Option Piece :=
  b.pieces.getD 0 none

/-- The bag invariant: all 7 fixed slots hold a piece. -/
def PieceBag.Full (b : PieceBag) : Prop :=
  b.pieces.length = 7 ∧ ∀ i, i < 7 → b.pieces.getD i none ≠ none

instance (b : PieceBag) : Decidable b.Full := by
  unfold PieceBag.Full
  infer_instance

/-- `struct Game` (rendering-only fields omitted; none exist). -/
structure Game where
  board : Board
  piece_bag : PieceBag
  piece : Piece
  piece_position : Point
  score : Nat
  level : Nat
  total_lines : Nat
  game_over : Bool
deriving DecidableEq

/-- `Game::move_piece`: commits the candidate origin when collision-free. -/
def Game.move_piece (g : Game) (dx dy : Int) : Game × Bool :=
  if g.board.collision_test g.piece ⟨g.piece_position.x + dx, g.piece_position.y + dy⟩ then
    (g, false)
  else ({ g with piece_position := ⟨g.piece_position.x + dx, g.piece_position.y + dy⟩ }, true)

/-- The spawn origin of `Game::place_new_piece`:
`((BOARD_WIDTH - shape.len() as u32) / 2, 0)`.  All constructed pieces have
`shape.len() ≤ 4 < BOARD_WIDTH`, so the `u32` subtraction never wraps and
coincides with truncated `Nat` subtraction. -/
def spawnOrigin (p : Piece) : Point :=
  ⟨(((BOARD_WIDTH - p.shape.length) / 2 : Nat) : Int), 0⟩

/-- `Game::place_new_piece`. -/
def Game.place_new_piece (g : Game) : Game × Bool :=
  if g.board.collision_test g.piece (spawnOrigin g.piece) then (g, false)
  else ({ g with piece_position := spawnOrigin g.piece }, true)

/-- The fixed scoring table of `Game::advance_game`. -/
def scoreTable : Nat → Nat
  | 1 => 40
  | 2 => 100
  | 3 => 300
  | 4 => 1200
  | _ => 0

/-- The bookkeeping `advance_game` applies after a lock whose `clear_lines`
returned the board `b` and the count `n`: the score/total/level updates are
all guarded by `if lines_cleared > 0`, and the level check compares the new
total against `level * 10`. -/
def applyClears (g : Game) (b : Board) (n : Nat) : Game :=
  if 0 < n then
    { g with
      board := b,
      score := g.score + scoreTable n,
      total_lines := g.total_lines + n,
      level := if 0 < n ∧ g.level * 10 ≤ g.total_lines + n then g.level + 1 else g.level }
  else { g with board := b }

/-- `Game::advance_game`, with the shuffle order of any bag refill taken as
a parameter.  All three game-over branches set the flag and return `false`,
exactly as in the code (the three `description()` calls are commented out
there). -/
def Game.advance_game (g : Game) (perm : List Nat) : Option (Game × Bool) :=
  if (g.move_piece 0 1).2 then some ((g.move_piece 0 1).1, true)
  else
    match g.board.lock_piece g.piece g.piece_position with
    | none => none
    | some b1 =>
      match b1.clear_lines with
      | none => none
      | some bn =>
        match (applyClears g bn.1 bn.2).piece_bag.pop perm with
        | none => none
        | some pb =>
          if (Game.place_new_piece
              { applyClears g bn.1 bn.2 with piece := pb.1, piece_bag := pb.2 }).2 then
            some ((Game.place_new_piece
              { applyClears g bn.1 bn.2 with piece := pb.1, piece_bag := pb.2 }).1, true)
          else
            some ({ (Game.place_new_piece
              { applyClears g bn.1 bn.2 with piece := pb.1, piece_bag := pb.2 }).1 with
                game_over := true }, false)

/-! ## Concrete fixtures used by witnesses and counterexamples -/

/-- The all-empty starting board. -/
def emptyBoard : Board := ⟨List.replicate BOARD_HEIGHT emptyRow⟩

/-- A completely full row. -/
def fullRow : List (Option Color) := List.replicate BOARD_WIDTH (some Color.Red)

/-- A row with exactly one occupied cell. -/
def partialRow : List (Option Color) := (some Color.Green) :: List.replicate 9 none

/-- A piece occupying a single cell, used to probe individual coordinates. -/
def unitPiece : Piece := { color := Color.Green, shape := [[1]] }

/-- A bottom row with a two-cell gap at columns 4 and 5 (the footprint of an
O piece spawned at x = 4). -/
def rowGap : List (Option Color) :=
  [some Color.Red, some Color.Red, some Color.Red, some Color.Red, none, none,
   some Color.Red, some Color.Red, some Color.Red, some Color.Red]

/-- A game state one gravity step from locking an O piece that completes the
two bottom rows. -/
def gW : Game :=
  { board := ⟨List.replicate 18 emptyRow ++ [rowGap, rowGap]⟩,
    piece_bag := PieceBag.new [0, 1, 2, 3, 4, 5, 6],
    piece := Piece.new_o,
    piece_position := ⟨4, 18⟩,
    score := 0,
    level := 0,
    total_lines := 0,
    game_over := false }

/-- Identity shuffle order used by concrete game scenarios. -/
def permW : List Nat := [0, 1, 2, 3, 4, 5, 6]

/-- The game state after one `advance_game` step from `gW`. -/
def gResW : Game := ((gW.advance_game permW).getD (gW, false)).1

/-! ## Helper lemmas -/

theorem length_mset (m : List (List Nat)) (i j v : Nat) :
    (mset m i j v).length = m.length := by
  unfold mset
  exact List.length_set ..

theorem getD_mset_self (m : List (List Nat)) (i j v : Nat) (hi : i < m.length) :
    (mset m i j v).getD i [] = (m.getD i []).set j v := by
  unfold mset
  rw [List.getD_eq_getElem?_getD, List.getElem?_set_self (by simpa using hi)]
  rfl

theorem getD_mset_ne (m : List (List Nat)) (i j v a : Nat) (h : a ≠ i) :
    (mset m i j v).getD a [] = m.getD a [] := by
  unfold mset
  rw [List.getD_eq_getElem?_getD, List.getElem?_set_ne (Ne.symm h),
    ← List.getD_eq_getElem?_getD]

theorem mget_mset_self (m : List (List Nat)) (i j v : Nat)
    (hi : i < m.length) (hj : j < (m.getD i []).length) :
    mget (mset m i j v) i j = v := by
  unfold mget
  rw [getD_mset_self m i j v hi, List.getD_eq_getElem?_getD,
    List.getElem?_set_self hj]
  rfl

theorem mget_mset_ne (m : List (List Nat)) (i j v a b : Nat)
    (h : ¬ (a = i ∧ b = j)) :
    mget (mset m i j v) a b = mget m a b := by
  unfold mget
  by_cases hai : a = i
  · subst hai
    have hbj : b ≠ j := fun hb => h ⟨rfl, hb⟩
    by_cases hi : a < m.length
    · rw [getD_mset_self m a j v hi, List.getD_eq_getElem?_getD,
        List.getElem?_set_ne (Ne.symm hbj), ← List.getD_eq_getElem?_getD]
    · unfold mset
      rw [List.set_eq_of_length_le (Nat.le_of_not_lt hi)]
  · rw [getD_mset_ne m i j v a hai]

theorem rowLen_mset (m : List (List Nat)) (i j v a : Nat) :
    ((mset m i j v).getD a []).length = (m.getD a []).length := by
  by_cases hai : a = i
  · subst hai
    by_cases hi : a < m.length
    · rw [getD_mset_self m a j v hi, List.length_set]
    · unfold mset
      rw [List.set_eq_of_length_le (Nat.le_of_not_lt hi)]
  · rw [getD_mset_ne m i j v a hai]

theorem mem_points_iff (p : Piece) (rc : Int × Int) :
    rc ∈ p.points ↔
      ∃ row col : Nat, SpecOccupied p row col ∧ rc = ((row : Int), (col : Int)) := by
  unfold Piece.points SpecOccupied
  simp only [List.mem_flatMap, List.mem_filterMap, List.mem_range]
  constructor
  · rintro ⟨row, hrow, col, hcol, h⟩
    split at h
    · exact ⟨row, col, ⟨hrow, hcol, by assumption⟩, (Option.some_inj.mp h).symm⟩
    · exact absurd h (by simp)
  · rintro ⟨row, col, ⟨hrow, hcol, hocc⟩, rfl⟩
    exact ⟨row, hrow, col, hcol, by simp [hocc]⟩

theorem collides_iff (b : Board) (o : Point) (r c : Int) :
    collides b o (r, c) = true ↔
      (¬ (0 ≤ o.x + c ∧ o.x + c < (BOARD_WIDTH : Int) ∧
          0 ≤ o.y + r ∧ o.y + r < (BOARD_HEIGHT : Int)) ∨
        b.cellAt (o.y + r) (o.x + c) ≠ none) := by
  by_cases hP : b.cellAt (o.y + r) (o.x + c) = none
  · unfold collides
    simp only [Bool.or_eq_true, decide_eq_true_eq, hP, ne_eq, not_true_eq_false, or_false]
    omega
  · unfold collides
    simp [hP]

theorem WF_rowLen (b : Board) (hWF : b.WF) (i : Nat) (hi : i < b.cells.length) :
    (b.cells.getD i []).length = BOARD_WIDTH := by
  rw [List.getD_eq_getElem?_getD, List.getElem?_eq_getElem hi]
  exact hWF.2 _ (List.getElem_mem hi)

theorem no_collision_bounds (b : Board) (p : Piece) (o : Point)
    (hc : b.collision_test p o = false) :
    ∀ rc ∈ p.points, 0 ≤ o.y + rc.1 ∧ o.y + rc.1 < (BOARD_HEIGHT : Int) ∧
      0 ≤ o.x + rc.2 ∧ o.x + rc.2 < (BOARD_WIDTH : Int) := by
  intro rc hmem
  have h : collides b o rc = false := by
    by_contra hne
    have : b.collision_test p o = true :=
      List.any_eq_true.mpr ⟨rc, hmem, Bool.of_not_eq_false hne⟩
    simp [this] at hc
  unfold collides at h
  simp only [Bool.or_eq_false_iff, decide_eq_false_iff_not, not_lt, not_le] at h
  omega

theorem writeCell_eq (b : Board) (y x : Int) (c : Color) (hWF : b.WF)
    (hy0 : 0 ≤ y) (hyH : y < (BOARD_HEIGHT : Int))
    (hx0 : 0 ≤ x) (hxW : x < (BOARD_WIDTH : Int)) :
    ∃ b', writeCell b y x c = some b' ∧ b'.WF ∧
      ∀ ry cx : Nat, b'.cellAt ry cx =
        if (ry : Int) = y ∧ (cx : Int) = x then some c else b.cellAt ry cx := by
  have hlen : b.cells.length = BOARD_HEIGHT := hWF.1
  have hyN : y.toNat < b.cells.length := by
    rw [hlen]; unfold BOARD_HEIGHT at hyH ⊢; omega
  have hrow : (b.cells.getD y.toNat []).length = BOARD_WIDTH := WF_rowLen b hWF _ hyN
  have hxN : x.toNat < (b.cells.getD y.toNat []).length := by
    rw [hrow]; unfold BOARD_WIDTH at hxW ⊢; omega
  refine ⟨_, by unfold writeCell; rw [if_pos ⟨hy0, hyN, hx0, hxN⟩], ?_, ?_⟩
  · constructor
    · simpa [List.length_set] using hlen
    · intro r hr
      rcases List.mem_or_eq_of_mem_set hr with h | h
      · exact hWF.2 r h
      · rw [h, List.length_set]; exact hrow
  · intro ry cx
    unfold Board.cellAt
    simp only [Int.toNat_natCast]
    by_cases hry : ry = y.toNat
    · subst hry
      rw [show (((b.cells.set (Int.toNat y) ((b.cells.getD y.toNat []).set x.toNat (some c))
          : List (List (Option Color))).getD y.toNat [])
          = (b.cells.getD y.toNat []).set x.toNat (some c)) from by
        rw [List.getD_eq_getElem?_getD, List.getElem?_set_self hyN]; rfl]
      by_cases hcx : cx = x.toNat
      · subst hcx
        rw [List.getD_eq_getElem?_getD, List.getElem?_set_self hxN]
        rw [if_pos (by omega)]
        rfl
      · rw [List.getD_eq_getElem?_getD, List.getElem?_set_ne (Ne.symm hcx),
          ← List.getD_eq_getElem?_getD, if_neg (by omega)]
    · rw [show (((b.cells.set (Int.toNat y) ((b.cells.getD y.toNat []).set x.toNat (some c))
          : List (List (Option Color))).getD ry [])
          = b.cells.getD ry []) from by
        rw [List.getD_eq_getElem?_getD, List.getElem?_set_ne (fun h => hry h.symm),
          ← List.getD_eq_getElem?_getD]]
      rw [if_neg (by omega)]

theorem lock_fold (o : Point) (col : Color) (L : List (Int × Int)) (b : Board) (hWF : b.WF)
    (hin : ∀ rc ∈ L, 0 ≤ o.y + rc.1 ∧ o.y + rc.1 < (BOARD_HEIGHT : Int) ∧
      0 ≤ o.x + rc.2 ∧ o.x + rc.2 < (BOARD_WIDTH : Int)) :
    ∃ b', L.foldlM (fun bb rc => writeCell bb (o.y + rc.1) (o.x + rc.2) col) b = some b' ∧
      b'.WF ∧
      ∀ ry cx : Nat, b'.cellAt ry cx =
        if ((ry : Int) - o.y, (cx : Int) - o.x) ∈ L then some col else b.cellAt ry cx := by
  induction L generalizing b with
  | nil => exact ⟨b, rfl, hWF, by simp⟩
  | cons rc L ih =>
    obtain ⟨hb1, hb2, hb3, hb4⟩ := hin rc (List.mem_cons_self ..)
    obtain ⟨b1, hw, hWF1, hcell1⟩ := writeCell_eq b (o.y + rc.1) (o.x + rc.2) col hWF hb1 hb2 hb3 hb4
    obtain ⟨b2, hfold, hWF2, hcell2⟩ :=
      ih b1 hWF1 (fun q hq => hin q (List.mem_cons_of_mem _ hq))
    refine ⟨b2, ?_, hWF2, ?_⟩
    · rw [List.foldlM_cons, hw]
      exact hfold
    · intro ry cx
      rw [hcell2 ry cx, hcell1 ry cx]
      by_cases hmem : ((ry : Int) - o.y, (cx : Int) - o.x) ∈ L
      · rw [if_pos hmem, if_pos (List.mem_cons_of_mem _ hmem)]
      · rw [if_neg hmem]
        by_cases hhead : ((ry : Int) - o.y, (cx : Int) - o.x) = rc
        · rw [if_pos (by rw [Prod.ext_iff] at hhead; obtain ⟨h1, h2⟩ := hhead; dsimp at h1 h2; omega),
            if_pos (by rw [hhead]; exact List.mem_cons_self ..)]
        · rw [if_neg (fun hand => hhead (by
            rw [Prod.ext_iff]
            dsimp
            omega)),
            if_neg (by
              rw [List.mem_cons]
              rintro (h | h)
              exacts [hhead h, hmem h])]


theorem getD_replicate_append {α : Type} (n i : Nat) (a : α) (l : List α) (d : α) (h : i < n) :
    (List.replicate n a ++ l).getD i d = a := by
  rw [List.getD_eq_getElem?_getD, List.getElem?_append, if_pos (by simpa using h),
    List.getElem?_replicate, if_pos h]
  rfl

theorem set_replicate_append {α : Type} (n i : Nat) (a : α) (l : List α) (h : i < n) :
    (List.replicate n a ++ l).set i a = List.replicate n a ++ l := by
  apply List.ext_getElem?
  intro j
  rw [List.getElem?_set]
  split
  · rename_i hij
    subst hij
    rw [if_pos (by simp; omega), List.getElem?_append, if_pos (by simpa using h),
      List.getElem?_replicate, if_pos h]
  · rfl

theorem clearInner_full_step (fuel row cleared : Nat) (cells : List (List (Option Color)))
    (hf : 0 < fuel)
    (h : rowFull (cells.getD row []) = true) (h2 : ¬ row < cleared + 1) :
    clearInner fuel row cleared cells =
      clearInner (fuel - 1) row (cleared + 1)
        ((cells.set row (cells.getD (row - (cleared + 1)) [])).set (row - (cleared + 1))
          emptyRow) := by
  cases fuel with
  | zero => omega
  | succ f => simp only [clearInner, h, if_true, if_neg h2, Nat.add_sub_cancel]

theorem clearInner_exit (fuel row cleared : Nat) (cells : List (List (Option Color)))
    (hf : 0 < fuel) (h : rowFull (cells.getD row []) = false) :
    clearInner fuel row cleared cells = some (cleared, cells) := by
  cases fuel with
  | zero => omega
  | succ f => simp only [clearInner, h]; rfl

theorem clearOuter_cons (row : Nat) (rest : List Nat) (cleared : Nat)
    (cells : List (List (Option Color))) (hguard : ¬ ((row : Int) - (cleared : Int) < 0)) :
    clearOuter (row :: rest) cleared cells =
      match clearInner (row + 2) row cleared
        (if 0 < cleared then
          (cells.set row (cells.getD (row - cleared) [])).set (row - cleared) emptyRow
        else cells) with
      | none => none
      | some pr => clearOuter rest pr.1 pr.2 := by
  simp only [clearOuter, if_neg hguard]
  cases hE : clearInner (row + 2) row cleared
      (if 0 < cleared then
        (cells.set row (cells.getD (row - cleared) [])).set (row - cleared) emptyRow
      else cells) with
  | none => rfl
  | some pr => cases pr; rfl

theorem clearOuter_noop (row : Nat) (rest : List Nat) (r : List (Option Color))
    (h2 : 2 ≤ row) (h18 : row ≤ 18) :
    clearOuter (row :: rest) 2 (List.replicate 19 emptyRow ++ [r]) =
      clearOuter rest 2 (List.replicate 19 emptyRow ++ [r]) := by
  rw [clearOuter_cons row rest 2 _ (by push_cast; omega)]
  rw [if_pos (by norm_num)]
  rw [getD_replicate_append 19 (row - 2) emptyRow [r] [] (by omega)]
  rw [set_replicate_append 19 row emptyRow [r] (by omega)]
  rw [set_replicate_append 19 (row - 2) emptyRow [r] (by omega)]
  rw [clearInner_exit (row + 2) row 2 _ (by omega)
    (by rw [getD_replicate_append 19 row emptyRow [r] [] (by omega)]; rfl)]


theorem sq_rowLen (m : List (List Nat)) (hsq : SquareWF m) (a : Nat) (ha : a < m.length) :
    (m.getD a []).length = m.length := by
  rw [List.getD_eq_getElem?_getD, List.getElem?_eq_getElem ha]
  exact hsq _ (List.getElem_mem ha)

theorem length_rotStep (dir : Direction) (size : Nat) (rc : Nat × Nat)
    (m : List (List Nat)) : (rotStep dir size rc m).length = m.length := by
  cases dir <;> simp only [rotStep, length_mset]

theorem rowLen_rotStep (dir : Direction) (size : Nat) (rc : Nat × Nat)
    (m : List (List Nat)) (a : Nat) :
    ((rotStep dir size rc m).getD a []).length = (m.getD a []).length := by
  cases dir <;> simp only [rotStep, rowLen_mset]

set_option maxHeartbeats 1000000 in
theorem rotStep_get (dir : Direction) (n : Nat) (m : List (List Nat))
    (hlen : m.length = n) (hrows : ∀ a, a < n → (m.getD a []).length = n)
    (r c : Nat) (h : InIters n r c) (i j : Nat) (hi : i < n) (hj : j < n) :
    mget (rotStep dir n (r, c) m) i j =
      if inOrbit n r c i j then
        mget m (rotIndex dir n (i, j)).1 (rotIndex dir n (i, j)).2
      else mget m i j := by
  obtain ⟨hA, hB, hC⟩ := h
  cases dir with
  | Left =>
    simp only [rotStep, rotIndex]
    set m1 := mset m r c (mget m c (n - r - 1)) with hm1
    set m2 := mset m1 c (n - r - 1) (mget m1 (n - r - 1) (n - c - 1)) with hm2
    set m3 := mset m2 (n - r - 1) (n - c - 1) (mget m2 (n - c - 1) r) with hm3
    have l1 : m1.length = n := by rw [hm1, length_mset, hlen]
    have l2 : m2.length = n := by rw [hm2, length_mset, l1]
    have w1 : ∀ a, a < n → (m1.getD a []).length = n := by
      intro a ha
      rw [hm1, rowLen_mset]
      exact hrows a ha
    have w2 : ∀ a, a < n → (m2.getD a []).length = n := by
      intro a ha
      rw [hm2, rowLen_mset]
      exact w1 a ha
    by_cases h0 : i = r ∧ j = c
    · rw [h0.1, h0.2]
      rw [if_pos (show inOrbit n r c r c from Or.inl ⟨rfl, rfl⟩)]
      rw [mget_mset_ne m3 (n - c - 1) r _ r c (by omega)]
      rw [hm3, mget_mset_ne m2 (n - r - 1) (n - c - 1) _ r c (by omega)]
      rw [hm2, mget_mset_ne m1 c (n - r - 1) _ r c (by omega)]
      rw [hm1, mget_mset_self m r c _ (by omega) (by rw [hrows r (by omega)]; omega)]
    · by_cases h1 : i = c ∧ j = n - r - 1
      · rw [h1.1, h1.2]
        rw [if_pos (show inOrbit n r c c (n - r - 1) from Or.inr (Or.inl ⟨rfl, rfl⟩))]
        rw [mget_mset_ne m3 (n - c - 1) r _ c (n - r - 1) (by omega)]
        rw [hm3, mget_mset_ne m2 (n - r - 1) (n - c - 1) _ c (n - r - 1) (by omega)]
        rw [hm2, mget_mset_self m1 c (n - r - 1) _ (by omega)
          (by rw [w1 c (by omega)]; omega)]
        rw [hm1, mget_mset_ne m r c _ (n - r - 1) (n - c - 1) (by omega)]
      · by_cases h2 : i = n - r - 1 ∧ j = n - c - 1
        · rw [h2.1, h2.2]
          rw [if_pos (show inOrbit n r c (n - r - 1) (n - c - 1) from
            Or.inr (Or.inr (Or.inl ⟨rfl, rfl⟩)))]
          rw [mget_mset_ne m3 (n - c - 1) r _ (n - r - 1) (n - c - 1) (by omega)]
          rw [hm3, mget_mset_self m2 (n - r - 1) (n - c - 1) _ (by omega)
            (by rw [w2 (n - r - 1) (by omega)]; omega)]
          rw [hm2, mget_mset_ne m1 c (n - r - 1) _ (n - c - 1) r (by omega)]
          rw [hm1, mget_mset_ne m r c _ (n - c - 1) r (by omega)]
          rw [show n - (n - r - 1) - 1 = r from by omega]
        · by_cases h3 : i = n - c - 1 ∧ j = r
          · rw [h3.1, h3.2]
            rw [if_pos (show inOrbit n r c (n - c - 1) r from
              Or.inr (Or.inr (Or.inr ⟨rfl, rfl⟩)))]
            rw [mget_mset_self m3 (n - c - 1) r _ (by rw [hm3, length_mset, l2]; omega)
              (by rw [hm3, rowLen_mset, w2 (n - c - 1) (by omega)]; omega)]
            rw [show n - (n - c - 1) - 1 = c from by omega]
          · rw [if_neg (fun hOrb => by
              rcases hOrb with hh | hh | hh | hh
              exacts [h0 hh, h1 hh, h2 hh, h3 hh])]
            rw [mget_mset_ne m3 (n - c - 1) r _ i j h3]
            rw [hm3, mget_mset_ne m2 (n - r - 1) (n - c - 1) _ i j h2]
            rw [hm2, mget_mset_ne m1 c (n - r - 1) _ i j h1]
            rw [hm1, mget_mset_ne m r c _ i j h0]
  | Right =>
    simp only [rotStep, rotIndex]
    set m1 := mset m r c (mget m (n - c - 1) r) with hm1
    set m2 := mset m1 (n - c - 1) r (mget m1 (n - r - 1) (n - c - 1)) with hm2
    set m3 := mset m2 (n - r - 1) (n - c - 1) (mget m2 c (n - r - 1)) with hm3
    have l1 : m1.length = n := by rw [hm1, length_mset, hlen]
    have l2 : m2.length = n := by rw [hm2, length_mset, l1]
    have w1 : ∀ a, a < n → (m1.getD a []).length = n := by
      intro a ha
      rw [hm1, rowLen_mset]
      exact hrows a ha
    have w2 : ∀ a, a < n → (m2.getD a []).length = n := by
      intro a ha
      rw [hm2, rowLen_mset]
      exact w1 a ha
    by_cases h0 : i = r ∧ j = c
    · rw [h0.1, h0.2]
      rw [if_pos (show inOrbit n r c r c from Or.inl ⟨rfl, rfl⟩)]
      rw [mget_mset_ne m3 c (n - r - 1) _ r c (by omega)]
      rw [hm3, mget_mset_ne m2 (n - r - 1) (n - c - 1) _ r c (by omega)]
      rw [hm2, mget_mset_ne m1 (n - c - 1) r _ r c (by omega)]
      rw [hm1, mget_mset_self m r c _ (by omega) (by rw [hrows r (by omega)]; omega)]
    · by_cases h1 : i = c ∧ j = n - r - 1
      · rw [h1.1, h1.2]
        rw [if_pos (show inOrbit n r c c (n - r - 1) from Or.inr (Or.inl ⟨rfl, rfl⟩))]
        rw [mget_mset_self m3 c (n - r - 1) _ (by rw [hm3, length_mset, l2]; omega)
          (by rw [hm3, rowLen_mset, w2 c (by omega)]; omega)]
        rw [show n - (n - r - 1) - 1 = r from by omega]
      · by_cases h2 : i = n - r - 1 ∧ j = n - c - 1
        · rw [h2.1, h2.2]
          rw [if_pos (show inOrbit n r c (n - r - 1) (n - c - 1) from
            Or.inr (Or.inr (Or.inl ⟨rfl, rfl⟩)))]
          rw [mget_mset_ne m3 c (n - r - 1) _ (n - r - 1) (n - c - 1) (by omega)]
          rw [hm3, mget_mset_self m2 (n - r - 1) (n - c - 1) _ (by omega)
            (by rw [w2 (n - r - 1) (by omega)]; omega)]
          rw [hm2, mget_mset_ne m1 (n - c - 1) r _ c (n - r - 1) (by omega)]
          rw [hm1, mget_mset_ne m r c _ c (n - r - 1) (by omega)]
          rw [show n - (n - c - 1) - 1 = c from by omega]
        · by_cases h3 : i = n - c - 1 ∧ j = r
          · rw [h3.1, h3.2]
            rw [if_pos (show inOrbit n r c (n - c - 1) r from
              Or.inr (Or.inr (Or.inr ⟨rfl, rfl⟩)))]
            rw [mget_mset_ne m3 c (n - r - 1) _ (n - c - 1) r (by omega)]
            rw [hm3, mget_mset_ne m2 (n - r - 1) (n - c - 1) _ (n - c - 1) r (by omega)]
            rw [hm2, mget_mset_self m1 (n - c - 1) r _ (by omega)
              (by rw [w1 (n - c - 1) (by omega)]; omega)]
            rw [hm1, mget_mset_ne m r c _ (n - r - 1) (n - c - 1) (by omega)]
          · rw [if_neg (fun hOrb => by
              rcases hOrb with hh | hh | hh | hh
              exacts [h0 hh, h1 hh, h2 hh, h3 hh])]
            rw [mget_mset_ne m3 c (n - r - 1) _ i j h1]
            rw [hm3, mget_mset_ne m2 (n - r - 1) (n - c - 1) _ i j h2]
            rw [hm2, mget_mset_ne m1 (n - c - 1) r _ i j h3]
            rw [hm1, mget_mset_ne m r c _ i j h0]

/-! ## Claim theorems -/

/-- C10: for every well-formed board, piece and origin such that
`collision_test(piece, origin)` is `false`, `lock_piece` succeeds (its
out-of-bounds error branch is unreachable), preserves the grid dimensions,
writes the piece's color into exactly the cells at `origin + offset` for the
piece's occupied offsets, and leaves every other cell unchanged. -/
theorem claim_C10_lock_piece (b : Board) (p : Piece) (o : Point)
    (hWF : b.WF) (hc : b.collision_test p o = false) :
    ∃ b', b.lock_piece p o = some b' ∧ b'.WF ∧
      ∀ ry cx : Nat, b'.cellAt ry cx =
        if ((ry : Int) - o.y, (cx : Int) - o.x) ∈ p.points then some p.color
        else b.cellAt ry cx := by
  unfold Board.lock_piece
  exact lock_fold o p.color p.points b hWF (no_collision_bounds b p o hc)

theorem claim_C10_lock_piece_witness :
    emptyBoard.WF ∧ emptyBoard.collision_test Piece.new_o ⟨4, 18⟩ = false ∧
      ∃ b', emptyBoard.lock_piece Piece.new_o ⟨4, 18⟩ = some b' ∧ b'.WF ∧
        ∀ ry cx : Nat, b'.cellAt ry cx =
          if ((ry : Int) - (18 : Int), (cx : Int) - (4 : Int)) ∈ Piece.new_o.points then
            some Piece.new_o.color
          else emptyBoard.cellAt ry cx :=
  ⟨by decide, by decide,
    claim_C10_lock_piece emptyBoard Piece.new_o ⟨4, 18⟩ (by decide) (by decide)⟩

/-- C2 counterexample: on the board whose rows 0 and 1 (the two top rows of
the grid, in the row indexing of `cells`) are completely full and whose row 2
is partially filled, `clear_lines` does not clear two rows and return 2: the
inner shift loop underflows `row - cleared_lines` (a `usize` subtraction
overflow / out-of-grid row access), modelled as `none`. -/
theorem claim_C2_counterexample :
    Board.clear_lines ⟨fullRow :: fullRow :: partialRow :: List.replicate 17 emptyRow⟩ =
      none := by
  rfl

/-- C2 amended: on a board whose two bottom rows 18 and 19 are completely
full and whose row 17 is partially filled (all other rows empty),
`clear_lines` clears exactly 2 rows, shifts row 17's content down by 2 rows
into row 19, leaves all rows above empty, and returns 2; the outer scan
terminates normally via the break once `row - cleared_lines` would move the
read pointer above row 0, and no row index outside the grid is accessed. -/
theorem claim_C2_amended (r17 r18 r19 : List (Option Color))
    (h17 : rowFull r17 = false) (h18 : rowFull r18 = true) (h19 : rowFull r19 = true) :
    Board.clear_lines ⟨List.replicate 17 emptyRow ++ [r17, r18, r19]⟩ =
      some (⟨List.replicate 19 emptyRow ++ [r17]⟩, 2) := by
  have s1 := clearInner_full_step 21 19 0 (List.replicate 17 emptyRow ++ [r17, r18, r19])
    (by norm_num) (by exact h19) (by norm_num)
  have s2 := clearInner_full_step 20 19 1 (List.replicate 17 emptyRow ++ [r17, emptyRow, r18])
    (by norm_num) (by exact h18) (by norm_num)
  have s3 := clearInner_exit 19 19 2 (List.replicate 17 emptyRow ++ [emptyRow, emptyRow, r17])
    (by norm_num) (by exact h17)
  have i_all : clearInner 21 19 0 (List.replicate 17 emptyRow ++ [r17, r18, r19]) =
      some (2, List.replicate 17 emptyRow ++ [emptyRow, emptyRow, r17]) :=
    s1.trans (s2.trans s3)
  have conv2 : (List.replicate 17 emptyRow ++ [emptyRow, emptyRow, r17] :
      List (List (Option Color))) = List.replicate 19 emptyRow ++ [r17] := rfl
  have tail_eval : clearOuter [18,17,16,15,14,13,12,11,10,9,8,7,6,5,4,3,2,1,0] 2
      (List.replicate 19 emptyRow ++ [r17]) =
      some (2, List.replicate 19 emptyRow ++ [r17]) := by
    rw [clearOuter_noop 18 _ r17 (by norm_num) (by norm_num)]
    rw [clearOuter_noop 17 _ r17 (by norm_num) (by norm_num)]
    rw [clearOuter_noop 16 _ r17 (by norm_num) (by norm_num)]
    rw [clearOuter_noop 15 _ r17 (by norm_num) (by norm_num)]
    rw [clearOuter_noop 14 _ r17 (by norm_num) (by norm_num)]
    rw [clearOuter_noop 13 _ r17 (by norm_num) (by norm_num)]
    rw [clearOuter_noop 12 _ r17 (by norm_num) (by norm_num)]
    rw [clearOuter_noop 11 _ r17 (by norm_num) (by norm_num)]
    rw [clearOuter_noop 10 _ r17 (by norm_num) (by norm_num)]
    rw [clearOuter_noop 9 _ r17 (by norm_num) (by norm_num)]
    rw [clearOuter_noop 8 _ r17 (by norm_num) (by norm_num)]
    rw [clearOuter_noop 7 _ r17 (by norm_num) (by norm_num)]
    rw [clearOuter_noop 6 _ r17 (by norm_num) (by norm_num)]
    rw [clearOuter_noop 5 _ r17 (by norm_num) (by norm_num)]
    rw [clearOuter_noop 4 _ r17 (by norm_num) (by norm_num)]
    rw [clearOuter_noop 3 _ r17 (by norm_num) (by norm_num)]
    rw [clearOuter_noop 2 _ r17 (by norm_num) (by norm_num)]
    simp only [clearOuter]
    rw [if_pos (by norm_num)]
  have main : clearOuter
      ((List.range ((List.replicate 17 emptyRow ++ [r17, r18, r19] :
        List (List (Option Color))).length)).reverse) 0
      (List.replicate 17 emptyRow ++ [r17, r18, r19]) =
      some (2, List.replicate 19 emptyRow ++ [r17]) := by
    have hr : (List.range ((List.replicate 17 emptyRow ++ [r17, r18, r19] :
        List (List (Option Color))).length)).reverse =
        19 :: [18,17,16,15,14,13,12,11,10,9,8,7,6,5,4,3,2,1,0] := rfl
    rw [hr, clearOuter_cons 19 _ 0 _ (by norm_num)]
    rw [if_neg (by norm_num)]
    rw [show (19 + 2 : Nat) = 21 from rfl, i_all, conv2]
    exact tail_eval
  unfold Board.clear_lines
  rw [main]

theorem claim_C2_amended_witness :
    rowFull partialRow = false ∧ rowFull fullRow = true ∧
      Board.clear_lines ⟨List.replicate 17 emptyRow ++ [partialRow, fullRow, fullRow]⟩ =
        some (⟨List.replicate 19 emptyRow ++ [partialRow]⟩, 2) :=
  ⟨by decide, by decide,
    claim_C2_amended partialRow fullRow fullRow (by decide) (by decide) (by decide)⟩

/-- C1: `Board.collision_test(piece, origin)` returns `true` if and only if
at least one occupied offset of the piece, mapped to absolute coordinates
`origin + offset`, lies outside `[0, WIDTH) × [0, HEIGHT)` or lands on a
non-empty board cell; it returns `false` otherwise.  (Non-mutation holds by
construction: the embedding of `collision_test` is a function returning only
a `Bool`, mirroring the `&self` receiver of the source.) -/
theorem claim_C1_collision_test_iff (b : Board) (p : Piece) (origin : Point) :
    b.collision_test p origin = true ↔ SpecCollision b p origin := by
  unfold Board.collision_test SpecCollision
  rw [List.any_eq_true]
  constructor
  · rintro ⟨rc, hmem, hc⟩
    obtain ⟨row, col, hocc, rfl⟩ := (mem_points_iff p rc).mp hmem
    exact ⟨row, col, hocc, (collides_iff b origin row col).mp hc⟩
  · rintro ⟨row, col, hocc, hviol⟩
    exact ⟨((row : Int), (col : Int)),
      (mem_points_iff p _).mpr ⟨row, col, hocc, rfl⟩,
      (collides_iff b origin row col).mpr hviol⟩

theorem getD_eq_getElem {α : Type} (l : List α) (d : α) (a : Nat) (h : a < l.length) :
    l.getD a d = l[a] := by
  rw [List.getD_eq_getElem?_getD, List.getElem?_eq_getElem h]
  rfl

theorem mem_rotIters (n : Nat) (rc : Nat × Nat) :
    rc ∈ rotIters n ↔ InIters n rc.1 rc.2 := by
  unfold rotIters InIters
  simp only [List.mem_flatMap, List.mem_map, List.mem_range, List.mem_range'_1]
  constructor
  · rintro ⟨row, hrow, col, hcol, rfl⟩
    dsimp
    omega
  · rintro ⟨h1, h2, h3⟩
    exact ⟨rc.1, h1, rc.2, by omega, rfl⟩

theorem nodup_rotIters (n : Nat) : (rotIters n).Nodup := by
  unfold rotIters
  rw [List.nodup_flatMap]
  constructor
  · intro row hrow
    exact (List.nodup_range' row (n - 1 - row - row)).map
      (fun a b hab => by simpa using hab)
  · apply (List.pairwise_lt_range (n / 2)).imp
    intro a b hab x hxa hxb
    simp only [List.mem_map] at hxa hxb
    obtain ⟨ca, hca, rfl⟩ := hxa
    obtain ⟨cb, hcb, h⟩ := hxb
    exact absurd (congrArg Prod.fst h) (by dsimp; omega)

theorem inOrbit_lt (n r c i j : Nat) (h : InIters n r c) (ho : inOrbit n r c i j) :
    i < n ∧ j < n := by
  obtain ⟨h1, h2, h3⟩ := h
  unfold inOrbit at ho
  omega

theorem rotIndex_lt (dir : Direction) (n i j : Nat) (hi : i < n) (hj : j < n) :
    (rotIndex dir n (i, j)).1 < n ∧ (rotIndex dir n (i, j)).2 < n := by
  cases dir <;> dsimp [rotIndex] <;> omega

theorem orbit_closed (dir : Direction) (n r c i j : Nat) (h : InIters n r c)
    (ho : inOrbit n r c i j) :
    inOrbit n r c (rotIndex dir n (i, j)).1 (rotIndex dir n (i, j)).2 := by
  obtain ⟨h1, h2, h3⟩ := h
  unfold inOrbit at ho ⊢
  cases dir <;> dsimp [rotIndex] <;> omega

theorem orbit_disjoint (n r c r' c' i j : Nat) (h : InIters n r c) (h' : InIters n r' c')
    (hne : ¬ (r = r' ∧ c = c')) (ho : inOrbit n r c i j) (ho' : inOrbit n r' c' i j) :
    False := by
  obtain ⟨a1, a2, a3⟩ := h
  obtain ⟨b1, b2, b3⟩ := h'
  unfold inOrbit at ho ho'
  omega

theorem orbit_cover (n i j : Nat) (hi : i < n) (hj : j < n)
    (hcen : ¬ (i = j ∧ 2 * i + 1 = n)) :
    ∃ r c, InIters n r c ∧ inOrbit n r c i j := by
  have hdisj : InIters n i j ∨ InIters n (n - j - 1) i ∨
      InIters n (n - i - 1) (n - j - 1) ∨ InIters n j (n - i - 1) := by
    unfold InIters
    omega
  rcases hdisj with h | h | h | h
  · exact ⟨i, j, h, Or.inl ⟨rfl, rfl⟩⟩
  · exact ⟨n - j - 1, i, h, Or.inr (Or.inl ⟨rfl, by omega⟩)⟩
  · exact ⟨n - i - 1, n - j - 1, h, Or.inr (Or.inr (Or.inl ⟨by omega, by omega⟩))⟩
  · exact ⟨j, n - i - 1, h, Or.inr (Or.inr (Or.inr ⟨by omega, rfl⟩))⟩

theorem rotFold_get (dir : Direction) (n : Nat) (L : List (Nat × Nat)) :
    ∀ (m : List (List Nat)), m.length = n → (∀ a, a < n → (m.getD a []).length = n) →
    (∀ rc ∈ L, InIters n rc.1 rc.2) → L.Pairwise (· ≠ ·) →
    ∀ i j, i < n → j < n →
      mget (L.foldl (fun mm rc => rotStep dir n rc mm) m) i j =
        if ∃ rc ∈ L, inOrbit n rc.1 rc.2 i j then
          mget m (rotIndex dir n (i, j)).1 (rotIndex dir n (i, j)).2
        else mget m i j := by
  induction L with
  | nil =>
    intro m hlen hrows _ _ i j hi hj
    rw [List.foldl_nil, if_neg (by simp)]
  | cons rc L ih =>
    obtain ⟨r, c⟩ := rc
    intro m hlen hrows hIn hPW i j hi hj
    have hrc : InIters n r c := hIn (r, c) (List.mem_cons_self ..)
    have hlen1 : (rotStep dir n (r, c) m).length = n := by rw [length_rotStep]; exact hlen
    have hrows1 : ∀ a, a < n → ((rotStep dir n (r, c) m).getD a []).length = n := by
      intro a ha
      rw [rowLen_rotStep]
      exact hrows a ha
    rw [List.foldl_cons]
    rw [ih (rotStep dir n (r, c) m) hlen1 hrows1
      (fun q hq => hIn q (List.mem_cons_of_mem _ hq)) hPW.of_cons i j hi hj]
    have hne : ∀ q ∈ L, ¬ (r = q.1 ∧ c = q.2) := by
      intro q hq hEq
      exact (List.pairwise_cons.mp hPW).1 q hq (Prod.ext hEq.1 hEq.2)
    by_cases hcov : ∃ q ∈ L, inOrbit n q.1 q.2 i j
    · rw [if_pos hcov]
      rw [if_pos (by
        obtain ⟨q, hq, hh⟩ := hcov
        exact ⟨q, List.mem_cons_of_mem _ hq, hh⟩)]
      obtain ⟨q, hq, hqo⟩ := hcov
      have hql : InIters n q.1 q.2 := hIn q (List.mem_cons_of_mem _ hq)
      have hso : inOrbit n q.1 q.2 (rotIndex dir n (i, j)).1 (rotIndex dir n (i, j)).2 :=
        orbit_closed dir n q.1 q.2 i j hql hqo
      have hslt := rotIndex_lt dir n i j hi hj
      rw [rotStep_get dir n m hlen hrows r c hrc _ _ hslt.1 hslt.2]
      rw [if_neg (fun hOrb => orbit_disjoint n r c q.1 q.2 _ _ hrc hql (hne q hq) hOrb hso)]
    · rw [if_neg hcov]
      by_cases horb : inOrbit n r c i j
      · rw [if_pos ⟨(r, c), List.mem_cons_self .., horb⟩]
        rw [rotStep_get dir n m hlen hrows r c hrc i j hi hj, if_pos horb]
      · rw [if_neg (by
          rintro ⟨q, hq, hh⟩
          rcases List.mem_cons.mp hq with rfl | hq'
          · exact horb hh
          · exact hcov ⟨q, hq', hh⟩)]
        rw [rotStep_get dir n m hlen hrows r c hrc i j hi hj, if_neg horb]

theorem rotFold_length (dir : Direction) (sz : Nat) (L : List (Nat × Nat)) :
    ∀ m : List (List Nat), (L.foldl (fun mm rc => rotStep dir sz rc mm) m).length = m.length := by
  induction L with
  | nil => intro m; rfl
  | cons rc L ih =>
    intro m
    rw [List.foldl_cons, ih, length_rotStep]

theorem rotFold_rowLen (dir : Direction) (sz : Nat) (L : List (Nat × Nat)) :
    ∀ (m : List (List Nat)) (a : Nat),
      ((L.foldl (fun mm rc => rotStep dir sz rc mm) m).getD a []).length =
        (m.getD a []).length := by
  induction L with
  | nil => intro m a; rfl
  | cons rc L ih =>
    intro m a
    rw [List.foldl_cons, ih, rowLen_rotStep]

theorem rotate_shape_length (p : Piece) (dir : Direction) :
    (p.rotate dir).shape.length = p.shape.length := by
  unfold Piece.rotate
  exact rotFold_length ..

theorem rotate_sq (p : Piece) (dir : Direction) (hsq : SquareWF p.shape) :
    SquareWF (p.rotate dir).shape := by
  intro row hrow
  obtain ⟨a, ha, rfl⟩ := List.mem_iff_getElem.mp hrow
  have h1 : a < p.shape.length := by rw [← rotate_shape_length p dir]; exact ha
  rw [← getD_eq_getElem _ [] a ha, rotate_shape_length]
  calc ((p.rotate dir).shape.getD a []).length
      = (p.shape.getD a []).length := by
        unfold Piece.rotate
        exact rotFold_rowLen ..
    _ = p.shape.length := sq_rowLen p.shape hsq a h1


theorem rotate_get (dir : Direction) (p : Piece) (n : Nat) (hn : p.shape.length = n)
    (hsq : SquareWF p.shape) (i j : Nat) (hi : i < n) (hj : j < n) :
    mget (p.rotate dir).shape i j =
      mget p.shape (rotIndex dir n (i, j)).1 (rotIndex dir n (i, j)).2 := by
  subst hn
  set n := p.shape.length with hn
  unfold Piece.rotate
  rw [rotFold_get dir n (rotIters n) p.shape rfl
    (fun a ha => sq_rowLen p.shape hsq a ha)
    (fun rc hrc => (mem_rotIters n rc).mp hrc)
    (nodup_rotIters n) i j hi hj]
  by_cases hcen : i = j ∧ 2 * i + 1 = n
  · rw [if_neg (by
      rintro ⟨q, hq, hh⟩
      have hql := (mem_rotIters n q).mp hq
      obtain ⟨a1, a2, a3⟩ := hql
      unfold inOrbit at hh
      omega)]
    have e1 : (rotIndex dir n (i, j)).1 = i := by cases dir <;> dsimp [rotIndex] <;> omega
    have e2 : (rotIndex dir n (i, j)).2 = j := by cases dir <;> dsimp [rotIndex] <;> omega
    rw [e1, e2]
  · obtain ⟨r, c, hIn, hOrb⟩ := orbit_cover n i j hi hj hcen
    rw [if_pos ⟨(r, c), (mem_rotIters n (r, c)).mpr hIn, hOrb⟩]

theorem matrix_ext (m1 m2 : List (List Nat)) (hlen : m1.length = m2.length)
    (hrow : ∀ a, a < m1.length → (m1.getD a []).length = (m2.getD a []).length)
    (hget : ∀ i j, i < m1.length → j < (m1.getD i []).length → mget m1 i j = mget m2 i j) :
    m1 = m2 := by
  apply List.ext_getElem hlen
  intro a h1 h2
  apply List.ext_getElem
  · have := hrow a h1
    rw [getD_eq_getElem _ [] a h1, getD_eq_getElem _ [] a h2] at this
    exact this
  · intro b hb1 hb2
    have hb1' : b < (m1.getD a []).length := by rw [getD_eq_getElem _ [] a h1]; exact hb1
    have := hget a b h1 hb1'
    unfold mget at this
    rw [getD_eq_getElem _ [] a h1, getD_eq_getElem _ [] a h2,
      getD_eq_getElem _ 0 b hb1, getD_eq_getElem _ 0 b hb2] at this
    exact this

theorem rotate_rowLen (p : Piece) (dir : Direction) (a : Nat) :
    ((p.rotate dir).shape.getD a []).length = (p.shape.getD a []).length := by
  unfold Piece.rotate
  exact rotFold_rowLen ..

theorem rot4_shape (p : Piece) (dir : Direction) (hsq : SquareWF p.shape) :
    ((((p.rotate dir).rotate dir).rotate dir).rotate dir).shape = p.shape := by
  set n := p.shape.length with hn
  have l1 : (p.rotate dir).shape.length = n := rotate_shape_length ..
  have s1 : SquareWF (p.rotate dir).shape := rotate_sq p dir hsq
  have l2 : ((p.rotate dir).rotate dir).shape.length = n :=
    (rotate_shape_length ..).trans l1
  have s2 : SquareWF ((p.rotate dir).rotate dir).shape := rotate_sq _ dir s1
  have l3 : (((p.rotate dir).rotate dir).rotate dir).shape.length = n :=
    (rotate_shape_length ..).trans l2
  have s3 : SquareWF (((p.rotate dir).rotate dir).rotate dir).shape := rotate_sq _ dir s2
  have l4 : ((((p.rotate dir).rotate dir).rotate dir).rotate dir).shape.length = n :=
    (rotate_shape_length ..).trans l3
  apply matrix_ext
  · rw [l4, hn]
  · intro a ha
    rw [rotate_rowLen, rotate_rowLen, rotate_rowLen, rotate_rowLen]
  · intro i j hi hjr
    rw [l4] at hi
    have hj : j < n := by
      rw [rotate_rowLen, rotate_rowLen, rotate_rowLen, rotate_rowLen,
        sq_rowLen p.shape hsq i (by rw [← hn]; exact hi)] at hjr
      rw [hn]
      exact hjr
    cases dir with
    | Left =>
      have g4 : mget ((((p.rotate Direction.Left).rotate Direction.Left).rotate
          Direction.Left).rotate Direction.Left).shape i j =
          mget (((p.rotate Direction.Left).rotate Direction.Left).rotate
            Direction.Left).shape j (n - i - 1) := by
        have := rotate_get Direction.Left _ n l3 s3 i j hi hj
        dsimp only [rotIndex] at this
        exact this
      have g3 : mget (((p.rotate Direction.Left).rotate Direction.Left).rotate
          Direction.Left).shape j (n - i - 1) =
          mget ((p.rotate Direction.Left).rotate Direction.Left).shape
            (n - i - 1) (n - j - 1) := by
        have := rotate_get Direction.Left _ n l2 s2 j (n - i - 1) hj (by omega)
        dsimp only [rotIndex] at this
        exact this
      have g2 : mget ((p.rotate Direction.Left).rotate Direction.Left).shape
          (n - i - 1) (n - j - 1) =
          mget (p.rotate Direction.Left).shape (n - j - 1) i := by
        have := rotate_get Direction.Left _ n l1 s1 (n - i - 1) (n - j - 1)
          (by omega) (by omega)
        dsimp only [rotIndex] at this
        rw [this, show n - (n - i - 1) - 1 = i from by omega]
      have g1 : mget (p.rotate Direction.Left).shape (n - j - 1) i =
          mget p.shape i j := by
        have := rotate_get Direction.Left p n hn.symm hsq (n - j - 1) i (by omega) (by omega)
        dsimp only [rotIndex] at this
        rw [this, show n - (n - j - 1) - 1 = j from by omega]
      exact g4.trans (g3.trans (g2.trans g1))
    | Right =>
      have g4 : mget ((((p.rotate Direction.Right).rotate Direction.Right).rotate
          Direction.Right).rotate Direction.Right).shape i j =
          mget (((p.rotate Direction.Right).rotate Direction.Right).rotate
            Direction.Right).shape (n - j - 1) i := by
        have := rotate_get Direction.Right _ n l3 s3 i j hi hj
        dsimp only [rotIndex] at this
        exact this
      have g3 : mget (((p.rotate Direction.Right).rotate Direction.Right).rotate
          Direction.Right).shape (n - j - 1) i =
          mget ((p.rotate Direction.Right).rotate Direction.Right).shape
            (n - i - 1) (n - j - 1) := by
        have := rotate_get Direction.Right _ n l2 s2 (n - j - 1) i (by omega) hi
        dsimp only [rotIndex] at this
        exact this
      have g2 : mget ((p.rotate Direction.Right).rotate Direction.Right).shape
          (n - i - 1) (n - j - 1) =
          mget (p.rotate Direction.Right).shape j (n - i - 1) := by
        have := rotate_get Direction.Right _ n l1 s1 (n - i - 1) (n - j - 1)
          (by omega) (by omega)
        dsimp only [rotIndex] at this
        rw [this, show n - (n - j - 1) - 1 = j from by omega]
      have g1 : mget (p.rotate Direction.Right).shape j (n - i - 1) =
          mget p.shape i j := by
        have := rotate_get Direction.Right p n hn.symm hsq j (n - i - 1) hj (by omega)
        dsimp only [rotIndex] at this
        rw [this, show n - (n - i - 1) - 1 = i from by omega]
      exact g4.trans (g3.trans (g2.trans g1))

theorem occCount_rotate (p : Piece) (dir : Direction) (hsq : SquareWF p.shape) :
    occCount (p.rotate dir).shape = occCount p.shape := by
  unfold occCount
  rw [rotate_shape_length]
  set n := p.shape.length with hn
  cases dir with
  | Left =>
    refine Finset.card_bij' (fun ij _ => rotIndex Direction.Left n ij)
      (fun ij _ => rotIndex Direction.Right n ij) ?_ ?_ ?_ ?_
    · intro ij hij
      rw [Finset.mem_filter, Finset.mem_product, Finset.mem_range, Finset.mem_range] at hij
      obtain ⟨⟨hij1, hij2⟩, hijv⟩ := hij
      have hg := rotate_get Direction.Left p n hn.symm hsq ij.1 ij.2 hij1 hij2
      dsimp only [rotIndex] at hg ⊢
      rw [Finset.mem_filter, Finset.mem_product, Finset.mem_range, Finset.mem_range]
      rw [hg] at hijv
      exact ⟨⟨by omega, by omega⟩, hijv⟩
    · intro ij hij
      rw [Finset.mem_filter, Finset.mem_product, Finset.mem_range, Finset.mem_range] at hij
      obtain ⟨⟨hij1, hij2⟩, hijv⟩ := hij
      have hg := rotate_get Direction.Left p n hn.symm hsq (n - ij.2 - 1) ij.1
        (by omega) hij1
      dsimp only [rotIndex] at hg ⊢
      rw [Finset.mem_filter, Finset.mem_product, Finset.mem_range, Finset.mem_range]
      rw [hg, show n - (n - ij.2 - 1) - 1 = ij.2 from by omega]
      exact ⟨⟨by omega, by omega⟩, hijv⟩
    · intro ij hij
      rw [Finset.mem_filter, Finset.mem_product, Finset.mem_range, Finset.mem_range] at hij
      obtain ⟨⟨hij1, hij2⟩, hijv⟩ := hij
      dsimp only [rotIndex]
      refine Prod.ext ?_ ?_ <;> dsimp <;> omega
    · intro ij hij
      rw [Finset.mem_filter, Finset.mem_product, Finset.mem_range, Finset.mem_range] at hij
      obtain ⟨⟨hij1, hij2⟩, hijv⟩ := hij
      dsimp only [rotIndex]
      refine Prod.ext ?_ ?_ <;> dsimp <;> omega
  | Right =>
    refine Finset.card_bij' (fun ij _ => rotIndex Direction.Right n ij)
      (fun ij _ => rotIndex Direction.Left n ij) ?_ ?_ ?_ ?_
    · intro ij hij
      rw [Finset.mem_filter, Finset.mem_product, Finset.mem_range, Finset.mem_range] at hij
      obtain ⟨⟨hij1, hij2⟩, hijv⟩ := hij
      have hg := rotate_get Direction.Right p n hn.symm hsq ij.1 ij.2 hij1 hij2
      dsimp only [rotIndex] at hg ⊢
      rw [Finset.mem_filter, Finset.mem_product, Finset.mem_range, Finset.mem_range]
      rw [hg] at hijv
      exact ⟨⟨by omega, by omega⟩, hijv⟩
    · intro ij hij
      rw [Finset.mem_filter, Finset.mem_product, Finset.mem_range, Finset.mem_range] at hij
      obtain ⟨⟨hij1, hij2⟩, hijv⟩ := hij
      have hg := rotate_get Direction.Right p n hn.symm hsq ij.2 (n - ij.1 - 1)
        hij2 (by omega)
      dsimp only [rotIndex] at hg ⊢
      rw [Finset.mem_filter, Finset.mem_product, Finset.mem_range, Finset.mem_range]
      rw [hg, show n - (n - ij.1 - 1) - 1 = ij.1 from by omega]
      exact ⟨⟨by omega, by omega⟩, hijv⟩
    · intro ij hij
      rw [Finset.mem_filter, Finset.mem_product, Finset.mem_range, Finset.mem_range] at hij
      obtain ⟨⟨hij1, hij2⟩, hijv⟩ := hij
      dsimp only [rotIndex]
      refine Prod.ext ?_ ?_ <;> dsimp <;> omega
    · intro ij hij
      rw [Finset.mem_filter, Finset.mem_product, Finset.mem_range, Finset.mem_range] at hij
      obtain ⟨⟨hij1, hij2⟩, hijv⟩ := hij
      dsimp only [rotIndex]
      refine Prod.ext ?_ ?_ <;> dsimp <;> omega

/-- C8: for every piece with a square occupancy matrix, rotating four times
in the same direction (all Left or all Right) restores the original piece
exactly; moreover a single rotation preserves the matrix's square dimension
and its count of occupied cells. -/
theorem claim_C8_rotate (p : Piece) (dir : Direction) (hsq : SquareWF p.shape) :
    (((p.rotate dir).rotate dir).rotate dir).rotate dir = p ∧
      (p.rotate dir).shape.length = p.shape.length ∧
      SquareWF (p.rotate dir).shape ∧
      occCount (p.rotate dir).shape = occCount p.shape := by
  refine ⟨?_, rotate_shape_length .., rotate_sq p dir hsq, occCount_rotate p dir hsq⟩
  have hs := rot4_shape p dir hsq
  calc ((((p.rotate dir).rotate dir).rotate dir).rotate dir)
      = ⟨((((p.rotate dir).rotate dir).rotate dir).rotate dir).color,
         ((((p.rotate dir).rotate dir).rotate dir).rotate dir).shape⟩ := rfl
    _ = ⟨p.color, p.shape⟩ := by rw [hs]; rfl
    _ = p := rfl

theorem claim_C8_rotate_witness :
    SquareWF Piece.new_l.shape ∧
      ((((Piece.new_l.rotate Direction.Left).rotate Direction.Left).rotate
          Direction.Left).rotate Direction.Left = Piece.new_l ∧
        (Piece.new_l.rotate Direction.Left).shape.length = Piece.new_l.shape.length ∧
        SquareWF (Piece.new_l.rotate Direction.Left).shape ∧
        occCount (Piece.new_l.rotate Direction.Left).shape = occCount Piece.new_l.shape) :=
  ⟨by decide, claim_C8_rotate Piece.new_l Direction.Left (by decide)⟩

theorem getD_set_self {α : Type} (l : List α) (i : Nat) (v d : α) (h : i < l.length) :
    (l.set i v).getD i d = v := by
  rw [List.getD_eq_getElem?_getD, List.getElem?_set_self (by simpa using h)]
  rfl

theorem getD_set_ne {α : Type} (l : List α) (i j : Nat) (v d : α) (h : j ≠ i) :
    (l.set i v).getD j d = l.getD j d := by
  rw [List.getD_eq_getElem?_getD, List.getElem?_set_ne (Ne.symm h), ← List.getD_eq_getElem?_getD]

theorem map_getD_range {α : Type} (l : List α) (d : α) :
    (List.range l.length).map (fun i => l.getD i d) = l := by
  apply List.ext_getElem (by simp)
  intro a h1 h2
  simp [List.getD_eq_getElem?_getD, List.getElem?_eq_getElem h2]

theorem filterMap_all_some {α β : Type} (g : α → Option β) (h : α → β) (l : List α)
    (H : ∀ x ∈ l, g x = some (h x)) : l.filterMap g = l.map h := by
  induction l with
  | nil => rfl
  | cons a l ih =>
    rw [List.filterMap_cons, H a (List.mem_cons_self ..), List.map_cons,
      ih (fun x hx => H x (List.mem_cons_of_mem _ hx))]

theorem canon_some : ∀ idx, idx < 7 →
    (canonicalPieces.map some).getD idx none =
      some (canonicalPieces.getD idx Piece.new_o) := by
  decide

theorem fill_fold (perm : List Nat) :
    ∀ (cs : List Nat) (loc bag : List (Option Piece)),
      cs.Nodup →
      (∀ i ∈ cs, i < 7) →
      bag.length = 7 →
      (cs.map (fun i => perm.getD i 0)).Nodup →
      (∀ i ∈ cs, perm.getD i 0 < 7) →
      (∀ i ∈ cs, loc.getD (perm.getD i 0) none =
        (canonicalPieces.map some).getD (perm.getD i 0) none) →
      (cs.foldl (fillStep perm) (loc, bag)).2.length = 7 ∧
      (∀ i, i ∉ cs → (cs.foldl (fillStep perm) (loc, bag)).2.getD i none = bag.getD i none) ∧
      (∀ i ∈ cs, (cs.foldl (fillStep perm) (loc, bag)).2.getD i none =
        (canonicalPieces.map some).getD (perm.getD i 0) none) := by
  intro cs
  induction cs with
  | nil =>
    intro loc bag _ _ hbag _ _ _
    exact ⟨hbag, fun i _ => rfl, fun i hi => absurd hi (List.not_mem_nil i)⟩
  | cons c cs ih =>
    intro loc bag hnd hlt hbag hmnd hplt hloc
    have hc7 : c < 7 := hlt c (List.mem_cons_self ..)
    have hidx7 : perm.getD c 0 < 7 := hplt c (List.mem_cons_self ..)
    have hval : loc.getD (perm.getD c 0) none =
        some (canonicalPieces.getD (perm.getD c 0) Piece.new_o) := by
      rw [hloc c (List.mem_cons_self ..)]
      exact canon_some _ hidx7
    have hstep : fillStep perm (loc, bag) c =
        (loc.set (perm.getD c 0) none,
         bag.set c (some (canonicalPieces.getD (perm.getD c 0) Piece.new_o))) := by
      unfold fillStep
      show (match loc.getD (perm.getD c 0) none with
        | some piece => (loc.set (perm.getD c 0) none, bag.set c (some piece))
        | none => (loc, bag)) = _
      rw [hval]
    rw [List.foldl_cons, hstep]
    have hheadm : ∀ i ∈ cs, perm.getD i 0 ≠ perm.getD c 0 := by
      intro i hi hEq
      exact (List.pairwise_cons.mp hmnd).1 (perm.getD i 0)
        (List.mem_map.mpr ⟨i, hi, rfl⟩) hEq.symm
    obtain ⟨r1, r2, r3⟩ := ih (loc.set (perm.getD c 0) none)
      (bag.set c (some (canonicalPieces.getD (perm.getD c 0) Piece.new_o)))
      hnd.of_cons
      (fun i hi => hlt i (List.mem_cons_of_mem _ hi))
      (by rw [List.length_set]; exact hbag)
      hmnd.of_cons
      (fun i hi => hplt i (List.mem_cons_of_mem _ hi))
      (fun i hi => by
        rw [getD_set_ne loc _ _ none none (hheadm i hi)]
        exact hloc i (List.mem_cons_of_mem _ hi))
    refine ⟨r1, ?_, ?_⟩
    · intro i hi
      rw [r2 i (fun hmem => hi (List.mem_cons_of_mem _ hmem))]
      rw [getD_set_ne bag c i _ none (fun hEq => hi (hEq ▸ List.mem_cons_self ..))]
    · intro i hi
      rcases List.mem_cons.mp hi with hic | hm
      · subst hic
        have hnotc : i ∉ cs := fun hmem => (List.pairwise_cons.mp hnd).1 i hmem rfl
        rw [r2 i hnotc, getD_set_self bag i _ none (by omega)]
        exact (canon_some _ hidx7).symm
      · exact r3 i hm

theorem perm_getD_lt (perm : List Nat) (hp : perm.Perm (List.range 7)) (i : Nat)
    (hi : i < 7) : perm.getD i 0 < 7 := by
  have hlen : perm.length = 7 := by rw [hp.length_eq, List.length_range]
  have hmem : perm.getD i 0 ∈ perm := by
    rw [getD_eq_getElem perm 0 i (by omega)]
    exact List.getElem_mem _
  have := hp.mem_iff.mp hmem
  rw [List.mem_range] at this
  exact this

theorem fill_bag_spec (b : PieceBag) (hb : b.pieces.length = 7) (perm : List Nat)
    (hp : perm.Perm (List.range 7)) :
    (b.fill_bag perm).pieces.length = 7 ∧
    (∀ i, i < 7 → (b.fill_bag perm).pieces.getD i none =
      (canonicalPieces.map some).getD (perm.getD i 0) none) := by
  have hlen : perm.length = 7 := by rw [hp.length_eq, List.length_range]
  have hmg : (List.range 7).map (fun i => perm.getD i 0) = perm := by
    have := map_getD_range perm 0
    rw [hlen] at this
    exact this
  have hnd : perm.Nodup := hp.nodup_iff.mpr (List.nodup_range 7)
  obtain ⟨r1, r2, r3⟩ := fill_fold perm (List.range 7) (canonicalPieces.map some) b.pieces
    (List.nodup_range 7)
    (fun i hi => List.mem_range.mp hi)
    hb
    (by rw [hmg]; exact hnd)
    (fun i hi => perm_getD_lt perm hp i (List.mem_range.mp hi))
    (fun i _ => rfl)
  exact ⟨r1, fun i hi => r3 i (List.mem_range.mpr hi)⟩

theorem fill_bag_full (b : PieceBag) (hb : b.pieces.length = 7) (perm : List Nat)
    (hp : perm.Perm (List.range 7)) : (b.fill_bag perm).Full := by
  obtain ⟨r1, r2⟩ := fill_bag_spec b hb perm hp
  refine ⟨r1, ?_⟩
  intro i hi
  rw [r2 i hi, canon_some _ (perm_getD_lt perm hp i hi)]
  exact Option.some_ne_none _

theorem filterMap_id_map_some {α : Type} (l : List α) :
    (l.map some).filterMap id = l := by
  induction l with
  | nil => rfl
  | cons a l ih => simp [ih]

theorem fill_bag_fresh (b : PieceBag) (hb : b.pieces.length = 7) (perm : List Nat)
    (hp : perm.Perm (List.range 7)) :
    ((b.fill_bag perm).pieces.filterMap id).Perm canonicalPieces := by
  have hlen : perm.length = 7 := by rw [hp.length_eq, List.length_range]
  obtain ⟨r1, r2⟩ := fill_bag_spec b hb perm hp
  have hpieces : (b.fill_bag perm).pieces =
      (perm.map (fun idx => canonicalPieces.getD idx Piece.new_o)).map some := by
    apply List.ext_getElem (by rw [r1, List.length_map, List.length_map, hlen])
    intro a h1 h2
    have ha7 : a < 7 := by rw [r1] at h1; exact h1
    rw [← getD_eq_getElem _ none a h1, r2 a ha7,
      canon_some _ (perm_getD_lt perm hp a ha7)]
    rw [List.getElem_map, List.getElem_map]
    rw [← getD_eq_getElem perm 0 a (by omega)]
  rw [hpieces, filterMap_id_map_some]
  have hfinal : (List.range 7).map (fun idx => canonicalPieces.getD idx Piece.new_o) =
      canonicalPieces := by decide
  have hstep := hp.map (fun idx => canonicalPieces.getD idx Piece.new_o)
  rw [hfinal] at hstep
  exact hstep

theorem pop_full (b : PieceBag) (hb : b.Full) (perm : List Nat)
    (hp : perm.Perm (List.range 7)) :
    ∃ pc b', b.pop perm = some (pc, b') ∧ b'.Full ∧
      (b'.pieces.filterMap id).Perm canonicalPieces := by
  obtain ⟨hlen, hsome⟩ := hb
  cases hq : b.pieces.getD 0 none with
  | none => exact absurd hq (hsome 0 (by omega))
  | some q =>
    have h6 : (popShift b.pieces).getD 6 none = none := rfl
    have hPopOnce : popOnce b perm =
        some (q, PieceBag.fill_bag ⟨popShift b.pieces⟩ perm) := by
      unfold popOnce
      rw [hq]
      simp only [h6]
      rfl
    have hfull := fill_bag_full ⟨popShift b.pieces⟩ rfl perm hp
    have hfresh := fill_bag_fresh ⟨popShift b.pieces⟩ rfl perm hp
    refine ⟨q, _, ?_, hfull, hfresh⟩
    unfold PieceBag.pop
    rw [hPopOnce]

theorem pop_seq_full (ps : List (List Nat)) :
    (∀ q ∈ ps, q.Perm (List.range 7)) →
    ∀ bag : PieceBag, bag.Full → (bag.pieces.filterMap id).Perm canonicalPieces →
    ∃ b', ps.foldlM (fun b q => (PieceBag.pop b q).map Prod.snd) bag = some b' ∧
      b'.Full ∧ (b'.pieces.filterMap id).Perm canonicalPieces := by
  induction ps with
  | nil =>
    intro _ bag hf hfr
    exact ⟨bag, rfl, hf, hfr⟩
  | cons q ps ih =>
    intro hqs bag hf hfr
    obtain ⟨pc, b1, hpop, hf1, hfr1⟩ := pop_full bag hf q (hqs q (List.mem_cons_self ..))
    obtain ⟨b', h1, h2, h3⟩ := ih (fun r hr => hqs r (List.mem_cons_of_mem _ hr)) b1 hf1 hfr1
    refine ⟨b', ?_, h2, h3⟩
    rw [List.foldlM_cons, hpop]
    exact h1

/-- C9: after every `fill_bag` call on a well-formed bag (7 fixed slots),
with the shuffle producing any permutation of the 7 indices, all 7 slots are
populated and the multiset of the 7 pieces equals exactly the seven
canonical variants (O, L, J, T, S, Z, I), each appearing exactly once. -/
theorem claim_C9_fill_bag (b : PieceBag) (hb : b.pieces.length = 7) (perm : List Nat)
    (hp : perm.Perm (List.range 7)) :
    (∀ i, i < 7 → (b.fill_bag perm).pieces.getD i none ≠ none) ∧
      ((b.fill_bag perm).pieces.filterMap id).Perm canonicalPieces :=
  ⟨(fill_bag_full b hb perm hp).2, fill_bag_fresh b hb perm hp⟩

theorem claim_C9_fill_bag_witness :
    (⟨List.replicate 7 none⟩ : PieceBag).pieces.length = 7 ∧
      List.Perm [3, 1, 4, 0, 6, 2, 5] (List.range 7) ∧
      ((∀ i, i < 7 →
          (PieceBag.fill_bag ⟨List.replicate 7 none⟩ [3, 1, 4, 0, 6, 2, 5]).pieces.getD i none ≠
            none) ∧
        ((PieceBag.fill_bag ⟨List.replicate 7 none⟩
            [3, 1, 4, 0, 6, 2, 5]).pieces.filterMap id).Perm canonicalPieces) :=
  ⟨by decide, by decide,
    claim_C9_fill_bag ⟨List.replicate 7 none⟩ rfl [3, 1, 4, 0, 6, 2, 5] (by decide)⟩

/-- C4: every `pop` shifts the queue forward, finds slot 6 empty (there is
no 8th element to shift in), and so refills the whole bag with a fresh
permutation; consequently, after any sequence of pops starting from a
freshly constructed bag, all slots (in particular slot 0) hold a piece, the
bag contents are a fresh full set of the 7 variants, and `peek` never
aborts. -/
theorem claim_C4_pop (perm0 : List Nat) (hp0 : perm0.Perm (List.range 7))
    (perms : List (List Nat)) (hps : ∀ q ∈ perms, q.Perm (List.range 7)) :
    ∃ b' : PieceBag,
      perms.foldlM (fun b q => (PieceBag.pop b q).map Prod.snd) (PieceBag.new perm0) =
        some b' ∧
      b'.pieces.getD 0 none ≠ none ∧ (∃ pc, b'.peek = some pc) ∧
      (b'.pieces.filterMap id).Perm canonicalPieces := by
  have hnf : (PieceBag.new perm0).Full := fill_bag_full ⟨List.replicate 7 none⟩ rfl perm0 hp0
  have hnfr := fill_bag_fresh ⟨List.replicate 7 none⟩ rfl perm0 hp0
  obtain ⟨b', h1, h2, h3⟩ := pop_seq_full perms hps _ hnf hnfr
  refine ⟨b', h1, h2.2 0 (by omega), ?_, h3⟩
  cases hpk : b'.pieces.getD 0 none with
  | none => exact absurd hpk (h2.2 0 (by omega))
  | some pc => exact ⟨pc, hpk⟩

theorem claim_C4_pop_witness :
    List.Perm [0, 1, 2, 3, 4, 5, 6] (List.range 7) ∧
      (∀ q ∈ [[1, 0, 2, 3, 4, 5, 6], [2, 1, 0, 3, 4, 5, 6]], List.Perm q (List.range 7)) ∧
      (∃ b' : PieceBag,
        List.foldlM (fun b q => (PieceBag.pop b q).map Prod.snd)
          (PieceBag.new [0, 1, 2, 3, 4, 5, 6]) [[1, 0, 2, 3, 4, 5, 6], [2, 1, 0, 3, 4, 5, 6]] =
          some b' ∧
        b'.pieces.getD 0 none ≠ none ∧ (∃ pc, b'.peek = some pc) ∧
        (b'.pieces.filterMap id).Perm canonicalPieces) :=
  ⟨by decide, by decide, claim_C4_pop _ (by decide) _ (by decide)⟩

theorem move_piece_game_over (g : Game) (dx dy : Int) :
    (g.move_piece dx dy).1.game_over = g.game_over := by
  unfold Game.move_piece
  split <;> rfl

theorem place_new_piece_fields (g : Game) :
    (g.place_new_piece).1.game_over = g.game_over ∧
    (g.place_new_piece).1.score = g.score ∧
    (g.place_new_piece).1.level = g.level ∧
    (g.place_new_piece).1.total_lines = g.total_lines := by
  unfold Game.place_new_piece
  split <;> exact ⟨rfl, rfl, rfl, rfl⟩

/-- C3: from an active state (game-over flag false), `advance_game` returns
`false` exactly when this call performs the active-to-over transition (the
newly drawn piece cannot be placed at spawn and the flag is set); it returns
`true` in every other case, and the flag is never set on a call that returns
`true`. -/
theorem claim_C3_advance_game (g : Game) (perm : List Nat) (g' : Game) (r : Bool)
    (hg : g.game_over = false) (h : g.advance_game perm = some (g', r)) :
    r = false ↔ g'.game_over = true := by
  unfold Game.advance_game at h
  by_cases hmv : (g.move_piece 0 1).2
  · rw [if_pos hmv] at h
    have hpair := Option.some_inj.mp h
    rw [Prod.ext_iff] at hpair
    obtain ⟨h1, h2⟩ := hpair
    dsimp at h1 h2
    rw [← h2, ← h1, move_piece_game_over, hg]
    simp
  · rw [if_neg hmv] at h
    cases hlock : g.board.lock_piece g.piece g.piece_position with
    | none =>
      simp only [hlock] at h
      exact absurd h (by simp)
    | some b1 =>
      simp only [hlock] at h
      cases hclear : b1.clear_lines with
      | none =>
        simp only [hclear] at h
        exact absurd h (by simp)
      | some bn =>
        simp only [hclear] at h
        cases hpop : (applyClears g bn.1 bn.2).piece_bag.pop perm with
        | none =>
          simp only [hpop] at h
          exact absurd h (by simp)
        | some pb =>
          simp only [hpop] at h
          have hac : (applyClears g bn.1 bn.2).game_over = false := by
            unfold applyClears
            split <;> exact hg
          by_cases hpl : (Game.place_new_piece
              { applyClears g bn.1 bn.2 with piece := pb.1, piece_bag := pb.2 }).2
          · rw [if_pos hpl] at h
            have hpair := Option.some_inj.mp h
            rw [Prod.ext_iff] at hpair
            obtain ⟨h1, h2⟩ := hpair
            dsimp at h1 h2
            rw [← h2, ← h1]
            rw [show (Game.place_new_piece
                { applyClears g bn.1 bn.2 with piece := pb.1, piece_bag := pb.2 }).1.game_over
                = false from by
              rw [(place_new_piece_fields _).1]
              exact hac]
            simp
          · rw [if_neg hpl] at h
            have hpair := Option.some_inj.mp h
            rw [Prod.ext_iff] at hpair
            obtain ⟨h1, h2⟩ := hpair
            dsimp at h1 h2
            rw [← h2, ← h1]
            simp

theorem advance_game_lock (g : Game) (perm : List Nat) (g' : Game) (r : Bool)
    (n : Nat) (b2 : Board)
    (hmv : (g.move_piece 0 1).2 = false)
    (hcl : (g.board.lock_piece g.piece g.piece_position).bind Board.clear_lines =
      some (b2, n))
    (h : g.advance_game perm = some (g', r)) :
    g'.score = (applyClears g b2 n).score ∧
    g'.level = (applyClears g b2 n).level ∧
    g'.total_lines = (applyClears g b2 n).total_lines := by
  unfold Game.advance_game at h
  rw [if_neg (by rw [hmv]; exact Bool.false_ne_true)] at h
  cases hlock : g.board.lock_piece g.piece g.piece_position with
  | none =>
    rw [hlock] at hcl
    exact absurd hcl (by simp)
  | some b1 =>
    rw [hlock] at hcl
    rw [Option.some_bind] at hcl
    simp only [hlock, hcl] at h
    cases hpop : (applyClears g (b2, n).1 (b2, n).2).piece_bag.pop perm with
    | none =>
      simp only [hpop] at h
      exact absurd h (by simp)
    | some pb =>
      simp only [hpop] at h
      by_cases hpl : (Game.place_new_piece
          { applyClears g (b2, n).1 (b2, n).2 with piece := pb.1, piece_bag := pb.2 }).2
      · rw [if_pos hpl] at h
        have hpair := Option.some_inj.mp h
        rw [Prod.ext_iff] at hpair
        obtain ⟨h1, h2⟩ := hpair
        dsimp at h1
        rw [← h1]
        exact ⟨(place_new_piece_fields _).2.1, (place_new_piece_fields _).2.2.1,
          (place_new_piece_fields _).2.2.2⟩
      · rw [if_neg hpl] at h
        have hpair := Option.some_inj.mp h
        rw [Prod.ext_iff] at hpair
        obtain ⟨h1, h2⟩ := hpair
        dsimp at h1
        rw [← h1]
        exact ⟨(place_new_piece_fields _).2.1, (place_new_piece_fields _).2.2.1,
          (place_new_piece_fields _).2.2.2⟩

/-- C5: for every `advance_game` call in which the landed piece's lock
clears exactly `n` complete lines, the score increases by exactly the table
value 40/100/300/1200 for n = 1/2/3/4 and by 0 otherwise, with no per-level
multiplier; additivity across successive clear events follows from the `+`
form. -/
theorem claim_C5_score (g : Game) (perm : List Nat) (g' : Game) (r : Bool)
    (n : Nat) (b2 : Board)
    (hmv : (g.move_piece 0 1).2 = false)
    (hcl : (g.board.lock_piece g.piece g.piece_position).bind Board.clear_lines =
      some (b2, n))
    (h : g.advance_game perm = some (g', r)) :
    g'.score = g.score + scoreTable n := by
  rw [(advance_game_lock g perm g' r n b2 hmv hcl h).1]
  unfold applyClears
  by_cases hn : 0 < n
  · rw [if_pos hn]
  · rw [if_neg hn]
    have hn0 : n = 0 := by omega
    subst hn0
    show g.score = g.score + scoreTable 0
    rfl

/-- C6: during `advance_game`, the level counter changes only with the
bookkeeping of a clear event: when the lock clears `n` lines, the total line
count becomes `total + n`, and the level increases by exactly 1 when
`n > 0` and the new total has reached the threshold `level * 10` for the
current level, and is unchanged otherwise. -/
theorem claim_C6_level (g : Game) (perm : List Nat) (g' : Game) (r : Bool)
    (n : Nat) (b2 : Board)
    (hmv : (g.move_piece 0 1).2 = false)
    (hcl : (g.board.lock_piece g.piece g.piece_position).bind Board.clear_lines =
      some (b2, n))
    (h : g.advance_game perm = some (g', r)) :
    g'.total_lines = g.total_lines + n ∧
    g'.level = if 0 < n ∧ g.level * 10 ≤ g.total_lines + n then g.level + 1 else g.level := by
  obtain ⟨-, hl, ht⟩ := advance_game_lock g perm g' r n b2 hmv hcl h
  rw [hl, ht]
  unfold applyClears
  by_cases hn : 0 < n
  · rw [if_pos hn]
    exact ⟨rfl, rfl⟩
  · rw [if_neg hn]
    have hn0 : n = 0 := by omega
    subst hn0
    refine ⟨rfl, ?_⟩
    rw [if_neg (by omega)]

theorem claim_C3_advance_game_witness :
    gW.game_over = false ∧ gW.advance_game permW = some (gResW, true) ∧
      (true = false ↔ gResW.game_over = true) :=
  ⟨by decide, by decide, claim_C3_advance_game gW permW gResW true (by decide) (by decide)⟩

theorem claim_C5_score_witness :
    (gW.move_piece 0 1).2 = false ∧
      (gW.board.lock_piece gW.piece gW.piece_position).bind Board.clear_lines =
        some (emptyBoard, 2) ∧
      gW.advance_game permW = some (gResW, true) ∧
      gResW.score = gW.score + scoreTable 2 :=
  ⟨by decide, by decide, by decide,
    claim_C5_score gW permW gResW true 2 emptyBoard (by decide) (by decide) (by decide)⟩

theorem claim_C6_level_witness :
    (gW.move_piece 0 1).2 = false ∧
      (gW.board.lock_piece gW.piece gW.piece_position).bind Board.clear_lines =
        some (emptyBoard, 2) ∧
      gW.advance_game permW = some (gResW, true) ∧
      (gResW.total_lines = gW.total_lines + 2 ∧
        gResW.level = if 0 < 2 ∧ gW.level * 10 ≤ gW.total_lines + 2 then gW.level + 1
          else gW.level) :=
  ⟨by decide, by decide, by decide,
    claim_C6_level gW permW gResW true 2 emptyBoard (by decide) (by decide) (by decide)⟩

theorem rows_len_set (cells : List (List (Option Color))) (i : Nat)
    (v : List (Option Color)) (hwf : ∀ r ∈ cells, r.length = BOARD_WIDTH)
    (hv : v.length = BOARD_WIDTH) :
    ∀ r ∈ cells.set i v, r.length = BOARD_WIDTH := by
  intro r hr
  rcases List.mem_or_eq_of_mem_set hr with h | h
  · exact hwf r h
  · rw [h]
    exact hv

theorem rows_len_getD (cells : List (List (Option Color))) (i : Nat)
    (hwf : ∀ r ∈ cells, r.length = BOARD_WIDTH) (hi : i < cells.length) :
    (cells.getD i []).length = BOARD_WIDTH := by
  rw [getD_eq_getElem _ [] i hi]
  exact hwf _ (List.getElem_mem hi)

theorem clearInner_WF : ∀ (fuel row cleared : Nat)
    (cells cells2 : List (List (Option Color))) (cleared2 : Nat),
    clearInner fuel row cleared cells = some (cleared2, cells2) →
    row < cells.length →
    (∀ r ∈ cells, r.length = BOARD_WIDTH) →
    cells2.length = cells.length ∧ ∀ r ∈ cells2, r.length = BOARD_WIDTH := by
  intro fuel
  induction fuel with
  | zero =>
    intro row cleared cells cells2 cleared2 h
    exact absurd h (by simp [clearInner])
  | succ f ih =>
    intro row cleared cells cells2 cleared2 h hrow hwf
    rw [clearInner] at h
    by_cases hfull : rowFull (cells.getD row []) = true
    · rw [if_pos hfull] at h
      by_cases hguard : row < cleared + 1
      · rw [if_pos hguard] at h
        exact absurd h (by simp)
      · rw [if_neg hguard] at h
        have hlen : ((cells.set row (cells.getD (row - (cleared + 1)) [])).set
            (row - (cleared + 1)) emptyRow).length = cells.length := by
          rw [List.length_set, List.length_set]
        obtain ⟨r1, r2⟩ := ih row (cleared + 1) _ cells2 cleared2 h
          (by rw [hlen]; exact hrow)
          (rows_len_set _ _ _
            (rows_len_set _ _ _ hwf
              (rows_len_getD cells _ hwf (by omega)))
            (by rw [emptyRow, List.length_replicate]))
        exact ⟨r1.trans hlen, r2⟩
    · rw [if_neg hfull] at h
      have hpair := Option.some_inj.mp h
      rw [Prod.ext_iff] at hpair
      obtain ⟨h1, h2⟩ := hpair
      dsimp at h2
      rw [← h2]
      exact ⟨rfl, hwf⟩

theorem clearOuter_WF : ∀ (rows : List Nat) (cleared : Nat)
    (cells cells2 : List (List (Option Color))) (cleared2 : Nat),
    clearOuter rows cleared cells = some (cleared2, cells2) →
    (∀ r ∈ rows, r < cells.length) →
    (∀ r ∈ cells, r.length = BOARD_WIDTH) →
    cells2.length = cells.length ∧ ∀ r ∈ cells2, r.length = BOARD_WIDTH := by
  intro rows
  induction rows with
  | nil =>
    intro cleared cells cells2 cleared2 h _ hwf
    have hpair := Option.some_inj.mp h
    rw [Prod.ext_iff] at hpair
    obtain ⟨h1, h2⟩ := hpair
    dsimp at h2
    rw [← h2]
    exact ⟨rfl, hwf⟩
  | cons row rest ih =>
    intro cleared cells cells2 cleared2 h hrows hwf
    rw [clearOuter] at h
    by_cases hguard : (row : Int) - (cleared : Int) < 0
    · rw [if_pos hguard] at h
      have hpair := Option.some_inj.mp h
      rw [Prod.ext_iff] at hpair
      obtain ⟨h1, h2⟩ := hpair
      dsimp at h2
      rw [← h2]
      exact ⟨rfl, hwf⟩
    · rw [if_neg hguard] at h
      have hrow : row < cells.length := hrows row (List.mem_cons_self ..)
      have hwf1 : ∀ r ∈ (if 0 < cleared then
          (cells.set row (cells.getD (row - cleared) [])).set (row - cleared) emptyRow
          else cells), r.length = BOARD_WIDTH := by
        split
        · exact rows_len_set _ _ _
            (rows_len_set _ _ _ hwf (rows_len_getD cells _ hwf (by omega)))
            (by rw [emptyRow, List.length_replicate])
        · exact hwf
      have hlen1 : (if 0 < cleared then
          (cells.set row (cells.getD (row - cleared) [])).set (row - cleared) emptyRow
          else cells).length = cells.length := by
        split
        · rw [List.length_set, List.length_set]
        · rfl
      cases hinner : clearInner (row + 2) row cleared
          (if 0 < cleared then
            (cells.set row (cells.getD (row - cleared) [])).set (row - cleared) emptyRow
          else cells) with
      | none =>
        simp only [hinner] at h
        exact absurd h (by simp)
      | some pr =>
        simp only [hinner] at h
        obtain ⟨i1, i2⟩ := clearInner_WF (row + 2) row cleared _ pr.2 pr.1
          (by rw [← Prod.mk.eta (p := pr)] at hinner; exact hinner)
          (by rw [hlen1]; exact hrow) hwf1
        obtain ⟨o1, o2⟩ := ih pr.1 pr.2 cells2 cleared2 h
          (fun r hr => by
            rw [i1, hlen1]
            exact hrows r (List.mem_cons_of_mem _ hr))
          i2
        exact ⟨o1.trans (i1.trans hlen1), o2⟩

theorem clear_lines_WF (b : Board) (b2 : Board) (n : Nat)
    (hWF : b.WF) (h : b.clear_lines = some (b2, n)) : b2.WF := by
  unfold Board.clear_lines at h
  cases houter : clearOuter ((List.range b.cells.length).reverse) 0 b.cells with
  | none =>
    rw [houter] at h
    exact absurd h (by simp)
  | some pr =>
    rw [houter] at h
    have hpair := Option.some_inj.mp h
    rw [Prod.ext_iff] at hpair
    obtain ⟨h1, h2⟩ := hpair
    dsimp at h1
    obtain ⟨o1, o2⟩ := clearOuter_WF _ 0 b.cells pr.2 pr.1
      (by rw [← Prod.mk.eta (p := pr)] at houter; exact houter)
      (fun r hr => by
        rw [List.mem_reverse, List.mem_range] at hr
        exact hr)
      hWF.2
    constructor
    · rw [← h1]
      dsimp
      rw [o1]
      exact hWF.1
    · rw [← h1]
      exact o2

theorem writeCell_WF (b : Board) (y x : Int) (c : Color) (b' : Board)
    (h : writeCell b y x c = some b') (hWF : b.WF) : b'.WF := by
  unfold writeCell at h
  by_cases hcond : 0 ≤ y ∧ y.toNat < b.cells.length ∧ 0 ≤ x ∧
      x.toNat < (b.cells.getD y.toNat []).length
  · rw [if_pos hcond] at h
    obtain ⟨hc1, hc2, hc3, hc4⟩ := hcond
    rw [← Option.some_inj.mp h]
    constructor
    · dsimp
      rw [List.length_set]
      exact hWF.1
    · intro r hr
      rcases List.mem_or_eq_of_mem_set hr with hm | hm
      · exact hWF.2 r hm
      · rw [hm, List.length_set]
        exact rows_len_getD b.cells _ hWF.2 hc2
  · rw [if_neg hcond] at h
    exact absurd h (by simp)

theorem lock_fold_WF : ∀ (L : List (Int × Int)) (b b' : Board) (o : Point) (c : Color),
    L.foldlM (fun bb rc => writeCell bb (o.y + rc.1) (o.x + rc.2) c) b = some b' →
    b.WF → b'.WF := by
  intro L
  induction L with
  | nil =>
    intro b b' o c h hWF
    exact (Option.some_inj.mp h) ▸ hWF
  | cons rc L ih =>
    intro b b' o c h hWF
    rw [List.foldlM_cons] at h
    cases hw : writeCell b (o.y + rc.1) (o.x + rc.2) c with
    | none =>
      rw [hw] at h
      exact absurd h (by simp)
    | some b1 =>
      rw [hw] at h
      exact ih b1 b' o c h (writeCell_WF b _ _ _ b1 hw hWF)

theorem lock_piece_WF (b : Board) (p : Piece) (o : Point) (b' : Board)
    (hWF : b.WF) (h : b.lock_piece p o = some b') : b'.WF := by
  unfold Board.lock_piece at h
  exact lock_fold_WF p.points b b' o p.color h hWF

theorem emptyBoard_cellAt (a b : Int) : emptyBoard.cellAt a b = none := by
  show ((List.replicate 20 (List.replicate 10 (none : Option Color))).getD a.toNat []).getD
    b.toNat none = none
  simp only [List.getD_eq_getElem?_getD]
  rw [List.getElem?_replicate]
  by_cases h : a.toNat < 20
  · rw [if_pos h]
    show (List.replicate 10 (none : Option Color))[b.toNat]?.getD none = none
    rw [List.getElem?_replicate]
    by_cases h2 : b.toNat < 10
    · rw [if_pos h2]
      rfl
    · rw [if_neg h2]
      rfl
  · rw [if_neg h]
    rfl

/-- C7 counterexample: the grid has `BOARD_HEIGHT = 20` rows, not 22, and
`collision_test` already reports a collision for a single occupied cell at
`y = 20` (or `y = 21`) on an empty board, so `[0, 22)` is not the vertical
in-bounds range. -/
theorem claim_C7_counterexample :
    BOARD_HEIGHT = 20 ∧ ¬ BOARD_HEIGHT = 22 ∧ emptyBoard.cells.length = 20 ∧
      emptyBoard.collision_test unitPiece ⟨0, 20⟩ = true ∧
      emptyBoard.collision_test unitPiece ⟨0, 21⟩ = true := by
  decide

/-- C7 amended: the board is a fixed grid of `BOARD_HEIGHT = 20` rows (the
spec's 2 hidden rows are among these 20, per `HIDDEN_ROWS`) by
`BOARD_WIDTH = 10` columns of optional-Color cells; the dimensions are
preserved by `lock_piece` and `clear_lines`, and `collision_test` treats
exactly the y coordinates in `[0, 20)` as vertically in-bounds. -/
theorem claim_C7_amended :
    BOARD_HEIGHT = 20 ∧ BOARD_WIDTH = 10 ∧ HIDDEN_ROWS = 2 ∧
    (∀ (b : Board) (p : Piece) (o : Point) (b' : Board),
      b.WF → b.lock_piece p o = some b' → b'.WF) ∧
    (∀ (b b' : Board) (n : Nat), b.WF → b.clear_lines = some (b', n) → b'.WF) ∧
    (∀ x y : Int, 0 ≤ x → x < (BOARD_WIDTH : Int) →
      (emptyBoard.collision_test unitPiece ⟨x, y⟩ = false ↔
        0 ≤ y ∧ y < (BOARD_HEIGHT : Int))) := by
  refine ⟨rfl, rfl, rfl,
    fun b p o b' hWF h => lock_piece_WF b p o b' hWF h,
    fun b b' n hWF h => clear_lines_WF b b' n hWF h,
    ?_⟩
  intro x y hx0 hxW
  rw [show (emptyBoard.collision_test unitPiece ⟨x, y⟩) =
    collides emptyBoard ⟨x, y⟩ ((0 : Int), (0 : Int)) from by
      unfold Board.collision_test
      rw [show unitPiece.points = [((0 : Int), (0 : Int))] from rfl]
      rw [List.any_cons, List.any_nil, Bool.or_false]]
  unfold collides
  simp only [BOARD_WIDTH, BOARD_HEIGHT] at hxW ⊢
  simp only [emptyBoard_cellAt, ne_eq, not_true_eq_false, decide_False, Bool.or_false,
    Bool.or_eq_false_iff, decide_eq_false_iff_not, not_lt, not_le]
  constructor
  · intro h
    omega
  · intro h
    omega

theorem claim_C7_amended_witness :
    0 ≤ (3 : Int) ∧ (3 : Int) < (BOARD_WIDTH : Int) ∧
      (emptyBoard.collision_test unitPiece ⟨3, 5⟩ = false ↔
        0 ≤ (5 : Int) ∧ (5 : Int) < (BOARD_HEIGHT : Int)) :=
  ⟨by decide, by decide, claim_C7_amended.2.2.2.2.2 3 5 (by decide) (by decide)⟩
end Tetrust
